import Mathlib

/-!
Verification development for the Arbitrum Nitro L2-rollup validator core.

The Go sources under scrutiny are shallowly embedded below:

* `validator/server_arb/execution_run.go` — the execution run's
  `GetLeavesWithStepSize` over a deterministic machine cache;
* `staker/block_validator.go` — the validation pipeline (worker loops,
  cursors, reorg protocol, module-root updates, `Start`);
* the staker `StateManager` (batch binary search, reverse execution-state
  lookup);
* the challenge history cache and the discrete-timeboost priority queue,
  whose implementations are not part of the excerpt and are therefore
  modelled from the specification (each such definition is marked
  `Modelled from the spec:` in its doc comment).

Machine integers in the Go sources are `uint64`; they are embedded as `Nat`
with explicit wrap-around (mod 2^64) at the spots where the Go code can
underflow, which are called out in comments.
-/

namespace NitroSpec

/-- Width of the Go `uint64` values used by the embedded code. -/
def U64MOD : Nat := 2 ^ 64

/-- `x - 1` on Go `uint64` values: wraps to `2^64 - 1` when `x = 0`.
The embedding keeps `Nat` everywhere and only applies the wrap where the
Go source can actually underflow. -/
def u64pred (x : Nat) : Nat :=
  if x = 0 then U64MOD - 1 else x - 1

/-- Result of `streamer.ResultAtCount` (`execution.MessageResult`): the
block hash and send root the local chain computed at a message count.
Hashes are modelled as `Nat` identifiers. -/
structure MessageResult where
  blockHash : Nat
  sendRoot : Nat
deriving DecidableEq, Repr

/-- The part of `arbostypes.MessageWithMetadata` the embedded code reads. -/
structure MsgMeta where
  delayedMessagesRead : Nat
deriving DecidableEq, Repr

/-- `validator.GoGlobalState`: (BlockHash, SendRoot, Batch, PosInBatch). -/
structure GoGlobalState where
  blockHash : Nat
  sendRoot : Nat
  batch : Nat
  posInBatch : Nat
deriving DecidableEq, Repr

/-- Errors returned by the embedded Go functions.  Constructors stand for
the distinguished error values / messages the claims talk about; `text`
covers the remaining `errors.New` / `fmt.Errorf` cases. -/
inductive GoErr where
  /-- The inbox tracker's stable "accumulator not found" error. -/
  | accumulatorNotFound
  /-- `fmt.Errorf("when attempting to find batch for message count %v high %v < low %v", ...)`. -/
  | highBelowLow (msgCount high low : Nat)
  /-- `fmt.Errorf("position in batch must be zero, but got %d", pos)`. -/
  | posInBatchNotZero (pos : Nat)
  /-- `staker.ErrChainCatchingUp`. -/
  | chainCatchingUp
  /-- `l2stateprovider.ErrNoExecutionState`. -/
  | noExecutionState
  /-- `errors.New("bad batch provided")`. -/
  | badBatch
  /-- `challengecache.ErrFileAlreadyExists`. -/
  | fileAlreadyExists
  /-- History-cache read error "only read %d state roots". -/
  | onlyReadStateRoots (n : Nat)
  /-- History-cache `determineFilePath` validation errors. -/
  | messageRangeInvalid
  | bigStepRangeInvalid
  /-- Cache file (or validations-map entry) not present. -/
  | notFound
  /-- `fmt.Errorf("%w: ...", err)` wrapping. -/
  | wrapped (inner : GoErr)
  /-- Any other error message. -/
  | text (s : String)
deriving DecidableEq, Repr

/-- The Go error string rendered for a `GoErr`, for the claims that talk
about error-message contents. -/
def goErrText : GoErr → String
  | .accumulatorNotFound => "accumulator not found"
  | .highBelowLow m h l =>
      "when attempting to find batch for message count " ++ toString m ++
        " high " ++ toString h ++ " < low " ++ toString l
  | .posInBatchNotZero p => "position in batch must be zero, but got " ++ toString p
  | .chainCatchingUp => "chain catching up"
  | .noExecutionState => "no execution state found"
  | .badBatch => "bad batch provided"
  | .fileAlreadyExists => "file already exists"
  | .onlyReadStateRoots n => "only read " ++ toString n ++ " state roots"
  | .messageRangeInvalid => "message number range invalid"
  | .bigStepRangeInvalid => "big step range invalid"
  | .notFound => "not found"
  | .wrapped inner => "wrapped: " ++ goErrText inner
  | .text s => s

/-! ## Hashes

Hashing (`crypto.Keccak256Hash`, `GoGlobalState.Hash()`, `machine.Hash()`)
is modelled by a free term algebra: distinct constructor applications are
distinct hashes, which is the standard collision-free idealisation. -/

/-- Hash values produced by the execution-run code. -/
inductive MHash where
  /-- `GoGlobalState.Hash()`. -/
  | gs (g : GoGlobalState)
  /-- `crypto.Keccak256Hash([]byte("Machine finished:"), h.Bytes())`. -/
  | machineFinished (h : MHash)
  /-- `machine.Hash()` of a running machine at a given step count
  (the `seed` separates machines of different executions). -/
  | machine (seed step : Nat)
deriving DecidableEq, Repr

/-- `Keccak256("Machine finished:" ‖ gs.Hash())` — the "machine finished"
state root of a global state. -/
def machineFinishedHash (g : GoGlobalState) : MHash :=
  .machineFinished (.gs g)

/-! ## 4.A/4.B — Machine cache and execution run (`execution_run.go`)

The deterministic VM itself is an external collaborator (spec §1), exposed
through `MachineInterface`.  It is modelled by the contract of spec §4.A:
a machine runs for `totalSteps` opcodes and then reports status Finished;
`GetMachineAt pos` yields step count `min pos totalSteps`; `IsRunning` is
true exactly below `totalSteps`; `GetGlobalState` is the global state the
machine reports at its current step count. -/

/-- Model of an `ArbitratorMachine` behind the machine cache. -/
structure ArbMachine where
  /-- Step count at which the machine reaches status Finished. -/
  totalSteps : Nat
  /-- `machine.GetGlobalState()` as a function of the step count. -/
  gsAt : Nat → GoGlobalState
  /-- `machine.Hash()` as a function of the step count. -/
  hashAt : Nat → MHash

/-- `Modelled from the spec:` BOLD's `state_hashes.NewStateHashes(roots, n)`
(the `state-commitments/state-hashes` package is not part of the excerpt).
Per spec §4.B, `GetLeavesInRange` "returns a length-`numDesired` sequence
of hashes", padded "by repetition" when the machine finished early; the
source comments directly above the call say the roots are padded by
repeating the last machine hash "until the state roots are the correct
length". -/
def newStateHashes (roots : List MHash) (n : Nat) : List MHash :=
  match roots.getLast? with
  | none => []
  | some last => (roots ++ List.replicate (n - roots.length) last).take n

/-- The hash-gathering loop of `GetLeavesWithStepSize`
(`execution_run.go` lines 99-153).  `remaining` counts the loop iterations
left (`numDesiredLeaves - numIterations`), `it` is `numIterations`, `cur`
is the machine's current step count.  Stepping clamps at `totalSteps`;
status Finished holds exactly at step count `totalSteps`; `IsRunning`
holds strictly below it. -/
def leavesLoop (m : ArbMachine) (machineStartIndex stepSize : Nat) :
    Nat → Nat → Nat → Except GoErr (List MHash)
  | 0, _, _ => .ok []
  | remaining + 1, it, cur =>
    -- The absolute opcode position the machine should be in after stepping.
    let position := machineStartIndex + stepSize * (it + 1)
    -- machine.Step(ctx, stepSize): advance, clamped at termination.
    let cur' := min (cur + stepSize) m.totalSteps
    if cur' = m.totalSteps then
      -- Machine reached the finished state: append the finished hash, break.
      .ok [machineFinishedHash (m.gsAt m.totalSteps)]
    else if position ≠ cur' ∧ (cur' < m.totalSteps ∨ position < cur') then
      .error (.text "machine is in wrong position")
    else
      match leavesLoop m machineStartIndex stepSize remaining (it + 1) cur' with
      | .error e => .error e
      | .ok rest => .ok (m.hashAt cur' :: rest)

/-- `executionRun.GetLeavesWithStepSize` (`execution_run.go` lines 68-160),
with the promise wrapper stripped.  The first state root is the
"Machine finished" hash of the machine's global state when
`machineStartIndex = 0`, otherwise the machine hash at the start index;
the loop then gathers one hash per step-size increment and the result is
assembled by `newStateHashes`. -/
def getLeavesWithStepSize (m : ArbMachine)
    (machineStartIndex stepSize numDesiredLeaves : Nat) :
    Except GoErr (List MHash) :=
  let s0 := min machineStartIndex m.totalSteps
  let first :=
    if machineStartIndex = 0 then machineFinishedHash (m.gsAt s0)
    else m.hashAt s0
  -- If we only want 1 state root, we can return early.
  if numDesiredLeaves = 1 then .ok [first]
  else
    match leavesLoop m machineStartIndex stepSize numDesiredLeaves 0 s0 with
    | .error e => .error e
    | .ok rest => .ok (newStateHashes (first :: rest) numDesiredLeaves)


/-- Concrete machine used to instantiate the execution-run theorems:
it finishes after 10 steps. -/
def c1Machine : ArbMachine :=
  ⟨10, fun s => ⟨s, s, 1, s⟩, fun s => .machine 7 s⟩

/-! ## External collaborators (spec §6)

The staker code consults the inbox tracker, the transaction streamer, the
inbox reader, the recorder, and two helpers of the stateless block
validator that are not part of the excerpt.  They are modelled as pure
oracles, fixed for the duration of one embedded call. -/

/-- Oracle bundle for the staker code. -/
structure Env where
  /-- `inboxTracker.GetBatchCount()`. -/
  getBatchCount : Except GoErr Nat
  /-- `inboxTracker.GetBatchMessageCount(batch)`. -/
  getBatchMessageCount : Nat → Except GoErr Nat
  /-- `streamer.ResultAtCount(count)`. -/
  resultAtCount : Nat → Except GoErr MessageResult
  /-- `streamer.GetProcessedMessageCount()`. -/
  getProcessedMessageCount : Except GoErr Nat
  /-- `streamer.GetMessage(index)`. -/
  getMessage : Nat → Except GoErr MsgMeta
  /-- `inboxReader.GetSequencerMessageBytes(batchNum)`; sequencer batch
  bytes are modelled as `Nat` identifiers. -/
  getSequencerMessageBytes : Nat → Except GoErr Nat
  /-- `StatelessBlockValidator.GlobalStatePositionsAtCount(count)` (the
  function body is outside the excerpt): start and end
  `GlobalStatePosition`, kept opaque as `Nat` identifiers and only fed to
  `buildGlobalState`. -/
  globalStatePositionsAtCount : Nat → Except GoErr (Nat × Nat)
  /-- `buildGlobalState(res, pos)` (body outside the excerpt). -/
  buildGlobalState : MessageResult → Nat → GoGlobalState
  /-- `recorder.PrepareForRecord(start, end)` acknowledgement. -/
  prepareForRecord : Nat → Nat → Except GoErr Unit

/-! ## 4.G — State manager (staker `StateManager`) -/

/-- The binary-search loop of `findBatchAfterMessageCount`
(`unnamed/part_000` lines 189-217).  The Go loop is unbounded; the `fuel`
argument only bounds the recursion depth and `findBatchAfterMessageCount`
supplies enough of it for every possible run (each iteration either
returns or strictly shrinks `high - low`).

Note that in the Go source the "accumulator not found" handler sets
`high = mid` and then falls through to the comparison chain with the
zero value `batchMsgCount = 0`, so for a nonzero `msgCount` it also
executes `low = mid + 1`. -/
def findBatchSearch (env : Env) (msgCount : Nat) : Nat → Nat → Nat → Except GoErr Nat
  | _, _, 0 => .error (.text "out of fuel")
  | low, high, fuel + 1 =>
    if high < low then .error (.highBelowLow msgCount high low)
    else
      let mid := (low + high) / 2
      match env.getBatchMessageCount mid with
      | .error e =>
        if e = .accumulatorNotFound then
          -- `high = mid`, then the chain below runs with `batchMsgCount = 0`.
          if 0 < msgCount then findBatchSearch env msgCount (mid + 1) mid fuel
          else if 0 = msgCount then .ok (mid + 1)
          else if mid = low then .ok mid
          else findBatchSearch env msgCount low mid fuel
        else .error (.wrapped e)
      | .ok batchMsgCount =>
        if batchMsgCount < msgCount then findBatchSearch env msgCount (mid + 1) high fuel
        else if batchMsgCount = msgCount then .ok (mid + 1)
        else if mid = low then .ok mid
        else findBatchSearch env msgCount low mid fuel

/-- `StateManager.findBatchAfterMessageCount` (`unnamed/part_000` lines
179-218). -/
def findBatchAfterMessageCount (env : Env) (msgCount : Nat) : Except GoErr Nat :=
  if msgCount = 0 then .ok 0
  else
    match env.getBatchCount with
    | .error e => .error e
    | .ok batchCount => findBatchSearch env msgCount 0 batchCount (batchCount + 2)

/-- `StateManager.findGlobalStateFromMessageCountAndBatch`
(`unnamed/part_000` lines 228-250). -/
def findGlobalStateFromMessageCountAndBatch (env : Env) (count batch : Nat) :
    Except GoErr GoGlobalState :=
  match (if 0 < batch then env.getBatchMessageCount (batch - 1) else .ok 0) with
  | .error e => .error e
  | .ok prevBatchMsgCount =>
    if count < prevBatchMsgCount then .error .badBatch
    else
      match env.resultAtCount count with
      | .error e => .error e
      | .ok res => .ok ⟨res.blockHash, res.sendRoot, batch, count - prevBatchMsgCount⟩

/-- `StateManager.getInfoAtMessageCountAndBatch` (`unnamed/part_000`
lines 220-226): a plain wrapper. -/
def getInfoAtMessageCountAndBatch (env : Env) (messageCount batch : Nat) :
    Except GoErr GoGlobalState :=
  findGlobalStateFromMessageCountAndBatch env messageCount batch

/-- `StateManager.executionStateAtMessageNumberImpl` (`unnamed/part_000`
lines 106-126).  The protocol `ExecutionState` wrapper always carries
`MachineStatus = Finished`; only its global state matters here, so the
embedding returns the `GoGlobalState`. -/
def executionStateAtMessageNumberImpl (env : Env) (messageNumber : Nat) :
    Except GoErr GoGlobalState :=
  match findBatchAfterMessageCount env messageNumber with
  | .error e => .error e
  | .ok batch =>
    match env.getBatchMessageCount batch with
    | .error e => .error e
    | .ok batchMsgCount =>
      let batch := if batchMsgCount ≤ messageNumber then batch + 1 else batch
      getInfoAtMessageCountAndBatch env messageNumber batch

/-- `StateManager.ExecutionStateMsgCount` (`unnamed/part_000` lines
62-90), the variant that rejects `PosInBatch ≠ 0`.  `state.Batch - 1` and
`uint64(messageCount) - 1` are `uint64` subtractions and wrap at zero
(`u64pred`). -/
def executionStateMsgCount (env : Env) (state : GoGlobalState) : Except GoErr Nat :=
  if state.posInBatch ≠ 0 then .error (.posInBatchNotZero state.posInBatch)
  else if state.batch = 1 ∧ state.posInBatch = 0 then .ok 1
  else
    let batch := u64pred state.batch
    match env.getBatchMessageCount batch with
    | .error e => .error e
    | .ok messageCount =>
      match executionStateAtMessageNumberImpl env (u64pred messageCount) with
      | .error e => .error e
      | .ok validatedExecutionState =>
        if validatedExecutionState.batch < batch then .error .chainCatchingUp
        else
          match env.resultAtCount messageCount with
          | .error e => .error e
          | .ok res =>
            if res.blockHash ≠ state.blockHash ∨ res.sendRoot ≠ state.sendRoot then
              .error .noExecutionState
            else .ok messageCount

/-- Default oracle bundle: every external query fails.  Concrete
environments below override the fields they need. -/
def noEnv : Env := {
  getBatchCount := .error .notFound
  getBatchMessageCount := fun _ => .error .notFound
  resultAtCount := fun _ => .error .notFound
  getProcessedMessageCount := .error .notFound
  getMessage := fun _ => .error .notFound
  getSequencerMessageBytes := fun _ => .error .notFound
  globalStatePositionsAtCount := fun _ => .error .notFound
  buildGlobalState := fun _ _ => ⟨0, 0, 0, 0⟩
  prepareForRecord := fun _ _ => .error .notFound }

/-- Inbox view with two batches where batch 1's accumulator is not found
locally: exercises the "accumulator not found" arm of the batch search. -/
def c5Env : Env := { noEnv with
  getBatchCount := .ok 2
  getBatchMessageCount := fun b =>
    if b = 0 then .ok 1 else .error .accumulatorNotFound }

/-- Inbox view whose validated chain is behind the claimed batch:
batch 2 has message count 10, but the batch containing message 9 resolves
to batch 0, so a claimed state at batch 3 is ahead of the local chain. -/
def c6EnvA : Env := { noEnv with
  getBatchCount := .ok 1
  getBatchMessageCount := fun b =>
    if b = 0 then .ok 100 else if b = 2 then .ok 10 else .error .accumulatorNotFound
  resultAtCount := fun n => .ok ⟨n, n⟩ }

/-- Consistent inbox view with three batches of message counts 1, 5, 10. -/
def c6EnvB : Env := { noEnv with
  getBatchCount := .ok 3
  getBatchMessageCount := fun b =>
    if b = 0 then .ok 1 else if b = 1 then .ok 5 else if b = 2 then .ok 10
    else .error .accumulatorNotFound
  resultAtCount := fun n => .ok ⟨n, n⟩ }

/-! ## 4.F — Block validator (`staker/block_validator.go`)

The pipeline functions below are translated one-to-one from the source;
each doc comment cites the lines.  The worker loops' effects are embedded
as pure state transformers over `BVState`; asynchronous completions
(record tasks, run promises) appear as oracle-provided values, and
observable side effects (cancellations, `MarkValid`, debug files, the
fatal channel) are returned as `Event` lists. -/

/-- Decidable equality for `Except` results (missing from core). -/
instance exceptDecEq {ε α : Type} [DecidableEq ε] [DecidableEq α] :
    DecidableEq (Except ε α)
  | .ok a, .ok b =>
    if h : a = b then isTrue (by rw [h]) else isFalse (by simp [h])
  | .ok _, .error _ => isFalse (by simp)
  | .error _, .ok _ => isFalse (by simp)
  | .error e, .error f =>
    if h : e = f then isTrue (by rw [h]) else isFalse (by simp [h])

/-- `valStatusField` (`block_validator.go` lines 144-153). -/
inductive ValStatusField where
  | created
  | recordSent
  | recordFailed
  | prepared
  | sendingValidation
  | validationSent
deriving DecidableEq, Repr

/-- `Modelled from the spec:` the validation entry produced by
`newValidationEntry` (stateless block validator, outside the excerpt).
Spec §4.D: an entry materializes from
`(startGS, endGS, message, batchBytes, prevDelayed)`. -/
structure VEntry where
  pos : Nat
  start : GoGlobalState
  endState : GoGlobalState
  msg : MsgMeta
  batchBytes : Nat
  prevDelayed : Nat
deriving DecidableEq, Repr

/-- A `validator.ValidationRun` handle as the validator loop reads it:
`Ready()`, `WasmModuleRoot()` and the value `Current()` delivers. -/
structure VRun where
  ready : Bool
  wasmModuleRoot : Nat
  current : Except GoErr GoGlobalState
deriving DecidableEq, Repr

/-- `validationStatus` (`block_validator.go` lines 155-160): atomic status
field, whether a cancel function is installed, the entry, and the run
handles. -/
structure VStatus where
  status : ValStatusField
  hasCancel : Bool
  entry : VEntry
  runs : List VRun
deriving DecidableEq, Repr

/-- Observable side effects of the pipeline functions. -/
inductive Event where
  /-- A validation's cancel function was invoked. -/
  | cancelled (pos : Nat)
  /-- `go v.recorder.MarkValid(pos, blockHash)` was launched. -/
  | markValid (pos blockHash : Nat)
  /-- `writeToFile` persisted a failed-validation debug bundle for the
  given position and wasm module root. -/
  | wroteDebugFile (pos moduleRoot : Nat)
  /-- `log.Error("Error during validation", ...)` in `possiblyFatal`. -/
  | loggedValidationError
  /-- `possiblyFatal` published the error to the fatal channel. -/
  | fatalPublished
deriving DecidableEq, Repr

/-- The `BlockValidatorConfig` fields the embedded functions read. -/
structure BVConfig where
  prerecordedBlocks : Nat
  forwardBlocks : Nat
  currentModuleRoot : String
  failureIsFatal : Bool
deriving DecidableEq, Repr

/-- The pending `nextRecordPrepared` promise: its `Ready()` flag and the
value `Current()` will deliver (`.ok target` once the recorder
acknowledged `PrepareForRecord`). -/
structure RecordPromise where
  ready : Bool
  result : Except GoErr Nat
deriving DecidableEq, Repr

/-- Mutable state of a `BlockValidator` (`block_validator.go` lines
35-76), together with the StopWaiter flags and the database record the
claims observe.  The validations `SyncMap` is an association list. -/
structure BVState where
  chainCaughtUp : Bool
  nextCreateBatch : Nat
  nextCreateBatchMsgCount : Nat
  nextCreateBatchReread : Bool
  nextCreateStartGS : GoGlobalState
  nextCreatePrevDelayed : Nat
  prepared : Nat
  nextRecordPrepared : Option RecordPromise
  lastValidGS : GoGlobalState
  createdA : Nat
  recordSentA : Nat
  validatedA : Nat
  validations : List (Nat × VStatus)
  /-- The RLP `GlobalStateValidatedInfo` persisted under
  `lastGlobalStateValidatedInfoKey`: global state plus wasm-root list. -/
  dbLastValidated : Option (GoGlobalState × List Nat)
  currentWasmModuleRoot : Nat
  pendingWasmModuleRoot : Nat
  /-- `v.Started()` of the StopWaiter. -/
  started : Bool
  /-- `v.Stopped()` of the StopWaiter. -/
  stopped : Bool
deriving DecidableEq, Repr

/-- `validations.Load(pos)`. -/
def lookupValidation (vs : List (Nat × VStatus)) (pos : Nat) : Option VStatus :=
  match vs.find? (fun p => p.1 = pos) with
  | some p => some p.2
  | none => none

/-- `validations.Store(pos, s)` (overwrites any previous binding). -/
def storeValidation (vs : List (Nat × VStatus)) (pos : Nat) (s : VStatus) :
    List (Nat × VStatus) :=
  (pos, s) :: vs.filter (fun p => p.1 ≠ pos)

/-- A successful `replaceStatus` compare-and-set on position `pos`. -/
def updateStatus (vs : List (Nat × VStatus)) (pos : Nat)
    (new : ValStatusField) : List (Nat × VStatus) :=
  vs.map (fun p => if p.1 = pos then (p.1, { p.2 with status := new }) else p)

/-- `possiblyFatal` (`block_validator.go` lines 224-238) rendered as the
event list it emits: nothing when the validator is stopped or the error
is nil; otherwise a log line plus, iff `FailureIsFatal`, a non-blocking
publish to the fatal channel. -/
def possiblyFatalEvents (cfg : BVConfig) (st : BVState) (err : Option GoErr) :
    List Event :=
  if st.stopped then []
  else
    match err with
    | none => []
    | some _ =>
      .loggedValidationError :: (if cfg.failureIsFatal then [.fatalPublished] else [])

/-- `SetCurrentWasmModuleRoot` (`block_validator.go` lines 382-408).
The zero hash is the model value 0. -/
def setCurrentWasmModuleRoot (cfg : BVConfig) (st : BVState) (hash : Nat) :
    Except GoErr Unit × BVState :=
  if hash = 0 then (.error (.text "trying to set zero as wasmModuleRoot"), st)
  else if hash = st.currentWasmModuleRoot then (.ok (), st)
  else if st.currentWasmModuleRoot = 0 then
    (.ok (), { st with currentWasmModuleRoot := hash })
  else if st.pendingWasmModuleRoot = hash then
    (.ok (), { st with currentWasmModuleRoot := hash })
  else if cfg.currentModuleRoot ≠ "current" then (.ok (), st)
  else (.error (.text "unexpected wasmModuleRoot"), st)

/-- `Start` (`block_validator.go` lines 886-905).  The Boolean records
that `LaunchThread(LaunchWorkthreadsWhenCaughtUp)` was reached; on the
error path the function returns before launching anything. -/
def startBV (env : Env) (st : BVState) : Except GoErr (BVState × Bool) :=
  let st := { st with started := true }
  if st.lastValidGS.batch = 0 then
    match env.resultAtCount 1 with
    | .error e => .error e
    | .ok genesis =>
      .ok ({ st with lastValidGS := ⟨genesis.blockHash, genesis.sendRoot, 1, 0⟩ }, true)
  else .ok (st, true)

/-- `GlobalStateToMsgCount` (`block_validator.go` lines 272-313). -/
def globalStateToMsgCount (env : Env) (gs : GoGlobalState) :
    Except GoErr (Bool × Nat) :=
  match env.getBatchCount with
  | .error e => .error e
  | .ok batchCount =>
    if batchCount ≤ gs.batch then .ok (false, 0)
    else
      match (if 0 < gs.batch then env.getBatchMessageCount (gs.batch - 1)
             else .ok 0 : Except GoErr Nat) with
      | .error e => .error e
      | .ok prevBatchMsgCount =>
        match (if 0 < gs.posInBatch then
                match env.getBatchMessageCount gs.batch with
                | .error e => .error (GoErr.wrapped e)
                | .ok curBatchMsgCount =>
                  if curBatchMsgCount < prevBatchMsgCount + gs.posInBatch then
                    .error (.text "globalstate not in chain")
                  else .ok (prevBatchMsgCount + gs.posInBatch)
              else .ok prevBatchMsgCount : Except GoErr Nat) with
        | .error e => .error e
        | .ok count =>
          match env.getProcessedMessageCount with
          | .error e => .error e
          | .ok processed =>
            if processed < count then .ok (false, 0)
            else
              match env.resultAtCount count with
              | .error e => .error e
              | .ok res =>
                if res.blockHash ≠ gs.blockHash ∨ res.sendRoot ≠ gs.sendRoot then
                  .error (.text "globalstate not in chain")
                else .ok (true, count)

/-- `checkValidatedGSCaughUp` (`block_validator.go` lines 315-344). -/
def checkValidatedGSCaughtUp (env : Env) (st : BVState) :
    (Except GoErr Bool) × BVState :=
  if st.chainCaughtUp then (.ok true, st)
  else if st.lastValidGS.batch = 0 then
    (.error (.text "lastValid not initialized. cannot validate genesis"), st)
  else
    match globalStateToMsgCount env st.lastValidGS with
    | .error e => (.error e, st)
    | .ok (caughtUp, count) =>
      if ¬caughtUp then (.ok false, st)
      else
        match env.getMessage (count - 1) with
        | .error e => (.error e, st)
        | .ok msg =>
          (.ok true, { st with
            nextCreateBatchReread := true
            nextCreateStartGS := st.lastValidGS
            nextCreatePrevDelayed := msg.delayedMessagesRead
            createdA := count
            recordSentA := count
            validatedA := count
            chainCaughtUp := true })

/-- `readBatch` (`block_validator.go` lines 410-427): `none` models
`found = false`, the pair is (batch bytes, batch message count). -/
def readBatch (env : Env) (batchNum : Nat) : Except GoErr (Option (Nat × Nat)) :=
  match env.getBatchCount with
  | .error e => .error e
  | .ok batchCount =>
    if batchCount < batchNum then .ok none
    else
      match env.getBatchMessageCount batchNum with
      | .error e => .error e
      | .ok batchMsgCount =>
        match env.getSequencerMessageBytes batchNum with
        | .error e => .error e
        | .ok batch => .ok (some (batch, batchMsgCount))

/-- End-state computation and entry publication of
`createNextValidationEntry` (`block_validator.go` lines 462-487),
performed on the state `st1` that already holds the batch to use. -/
def createFinish (pos : Nat) (msg : MsgMeta) (endRes : MessageResult)
    (st1 : BVState) : (Except GoErr Bool) × BVState :=
  if pos + 1 < st1.nextCreateBatchMsgCount then
    let endGS : GoGlobalState :=
      ⟨endRes.blockHash, endRes.sendRoot,
        st1.nextCreateStartGS.batch, st1.nextCreateStartGS.posInBatch + 1⟩
    let entry : VEntry := ⟨pos, st1.nextCreateStartGS, endGS, msg,
      st1.nextCreateBatch, st1.nextCreatePrevDelayed⟩
    (.ok true, { st1 with
      validations := storeValidation st1.validations pos ⟨.created, false, entry, []⟩
      nextCreateStartGS := endGS
      nextCreatePrevDelayed := msg.delayedMessagesRead
      createdA := pos + 1 })
  else if pos + 1 = st1.nextCreateBatchMsgCount then
    let endGS : GoGlobalState :=
      ⟨endRes.blockHash, endRes.sendRoot, st1.nextCreateStartGS.batch + 1, 0⟩
    let entry : VEntry := ⟨pos, st1.nextCreateStartGS, endGS, msg,
      st1.nextCreateBatch, st1.nextCreatePrevDelayed⟩
    (.ok true, { st1 with
      validations := storeValidation st1.validations pos ⟨.created, false, entry, []⟩
      nextCreateStartGS := endGS
      nextCreatePrevDelayed := msg.delayedMessagesRead
      createdA := pos + 1 })
  else (.error (.text "illegal batch msg count"), st1)

/-- `createNextValidationEntry` (`block_validator.go` lines 429-488). -/
def createNextValidationEntry (cfg : BVConfig) (env : Env) (st : BVState) :
    (Except GoErr Bool) × BVState :=
  let pos := st.createdA
  if st.validatedA + cfg.forwardBlocks < pos then (.ok false, st)
  else
    match env.getProcessedMessageCount with
    | .error e => (.error e, st)
    | .ok streamerMsgCount =>
      if streamerMsgCount ≤ pos then (.ok false, st)
      else
        match env.getMessage pos with
        | .error e => (.error e, st)
        | .ok msg =>
          match env.resultAtCount (pos + 1) with
          | .error e => (.error e, st)
          | .ok endRes =>
            -- read a new batch when entering it or when a reread was requested
            if st.nextCreateStartGS.posInBatch = 0 ∨ st.nextCreateBatchReread then
              match readBatch env st.nextCreateStartGS.batch with
              | .error e => (.error e, st)
              | .ok none => (.ok false, st)
              | .ok (some bc) =>
                createFinish pos msg endRes { st with
                  nextCreateBatch := bc.1
                  nextCreateBatchMsgCount := bc.2
                  nextCreateBatchReread := false }
            else createFinish pos msg endRes st

/-- The launch phase of `sendNextRecordPrepare` (`block_validator.go`
lines 517-534): compute the capped `nextPrepared`, and if new ground is
to be covered install a fresh (not yet ready) promise whose eventual
value is `nextPrepared` on recorder success. -/
def recordPrepareLaunch (cfg : BVConfig) (env : Env) (st : BVState) : BVState :=
  let nextPrepared := min (st.validatedA + cfg.prerecordedBlocks) st.createdA
  if nextPrepared ≤ st.prepared then st
  else
    let promiseResult : Except GoErr Nat :=
      match env.prepareForRecord st.prepared (nextPrepared - 1) with
      | .error e => .error e
      | .ok _ => .ok nextPrepared
    { st with nextRecordPrepared := some ⟨false, promiseResult⟩ }

/-- `sendNextRecordPrepare` (`block_validator.go` lines 502-535). -/
def sendNextRecordPrepare (cfg : BVConfig) (env : Env) (st : BVState) :
    (Except GoErr Unit) × BVState :=
  match st.nextRecordPrepared with
  | some pr =>
    if pr.ready then
      match pr.result with
      | .error e => (.error e, st)
      | .ok prepared =>
        (.ok (), recordPrepareLaunch cfg env
          { st with prepared := max st.prepared prepared, nextRecordPrepared := none })
    else (.ok (), st)
  | none => (.ok (), recordPrepareLaunch cfg env st)

/-- `sendNextRecordRequest` (`block_validator.go` lines 537-562),
including the `sendRecord` call (lines 346-370): when the validator has
started, the entry's status moves Created → RecordSent (the compare-and-
set succeeds because the status was just checked); either way the
`recordSent` cursor advances.  The spawned recording task's later
RecordSent → Prepared / RecordFailed transition is an external
completion, not part of this call. -/
def sendNextRecordRequest (cfg : BVConfig) (env : Env) (st : BVState) :
    (Except GoErr Bool) × BVState :=
  match sendNextRecordPrepare cfg env st with
  | (.error e, st1) => (.error e, st1)
  | (.ok _, st1) =>
    let pos := st1.recordSentA
    if st1.prepared ≤ pos then (.ok false, st1)
    else
      match lookupValidation st1.validations pos with
      | none => (.error (.text "not found entry for pos"), st1)
      | some vstat =>
        if vstat.status ≠ .created then
          (.error (.text "bad status trying to send recordings"), st1)
        else
          let st2 :=
            if st1.started then
              { st1 with validations := updateStatus st1.validations pos .recordSent }
            else st1
          (.ok true, { st2 with recordSentA := pos + 1 })

/-- Outcome of one iteration of the `validatiosLoop` in
`advanceValidations`: the loop returned (with an optional reorg pointer),
failed with an error, or continues with the next position. -/
inductive IterRes where
  | ret (reorg : Option Nat)
  | err (e : GoErr)
  | next
deriving DecidableEq, Repr

/-- Result bundle of one validation-loop iteration. -/
structure IterOut where
  res : IterRes
  st : BVState
  events : List Event
  room : Nat
deriving DecidableEq, Repr

/-- The run checks of the `ValidationSent` branch of `advanceValidations`
(`block_validator.go` lines 630-650) followed by the success updates
(lines 651-665).  `acc` accumulates the runs' wasm module roots (in
reverse).  A non-ready run makes the outer loop move on (`continue
validatiosLoop`); a run error or an end-state mismatch records the
failure (writing the debug file in the mismatch case) and returns a reorg
request; if every run matched, `lastValidGS` advances to the entry's end
state, `MarkValid` is launched, the record is persisted and the
`validated` cursor advances. -/
def processRuns (cfg : BVConfig) (st : BVState) (pos : Nat) (vstat : VStatus)
    (room : Nat) : List VRun → List Nat → IterOut
  | [], acc =>
    { res := .next
      st := { st with
        lastValidGS := vstat.entry.endState
        validatedA := pos + 1
        dbLastValidated := some (vstat.entry.endState, acc.reverse) }
      events := [.markValid pos vstat.entry.endState.blockHash]
      room := room }
  | run :: rest, acc =>
    if ¬run.ready then { res := .next, st := st, events := [], room := room }
    else
      match run.current with
      | .ok runEnd =>
        if runEnd ≠ vstat.entry.endState then
          { res := .ret (some pos)
            st := st
            events := .wroteDebugFile pos run.wasmModuleRoot ::
              possiblyFatalEvents cfg st (some (.text "validation failed"))
            room := room }
        else processRuns cfg st pos vstat room rest (run.wasmModuleRoot :: acc)
      | .error e =>
        { res := .ret (some pos)
          st := st
          events := possiblyFatalEvents cfg st (some e)
          room := room }

/-- One iteration of the `validatiosLoop` of `advanceValidations`
(`block_validator.go` lines 607-709) at position `pos` with `room` launch
slots left.  The `Prepared` branch's asynchronous launch thread is
collapsed to its completed effect: cancel handle installed, runs spawned
(through the `spawnRuns` oracle) and status moved Prepared →
SendingValidation → ValidationSent. -/
def validationIterationBody (cfg : BVConfig) (st : BVState)
    (spawnRuns : Nat → List VRun) (pos room : Nat) : IterOut :=
  if st.recordSentA ≤ pos then ⟨.ret none, st, [], room⟩
  else
    match lookupValidation st.validations pos with
    | none => ⟨.err (.text "not found entry for pos"), st, [], room⟩
    | some vstat =>
      if vstat.status = .recordFailed then ⟨.ret (some pos), st, [], room⟩
      else if vstat.status = .validationSent ∧ pos = st.validatedA then
        if vstat.entry.start ≠ st.lastValidGS then
          ⟨.ret (some pos), st, [.cancelled pos], room⟩
        else processRuns cfg st pos vstat room vstat.runs []
      else if room = 0 then ⟨.ret none, st, [], room⟩
      else if vstat.status = .prepared then
        let vstat' : VStatus :=
          { vstat with
              status := .validationSent
              hasCancel := true
              runs := spawnRuns pos }
        ⟨.next,
          { st with validations := storeValidation st.validations pos vstat' },
          [], room - 1⟩
      else ⟨.next, st, [], room⟩

/-- The committed tail of `Reorg` (`block_validator.go` lines 800-829)
once the streamer queries succeeded: cancel and delete every validation
at positions `[count, created)`, reset the creation state from the
recomputed global state, set `created := count` and clamp `recordSent`,
`validated` (persisting the recomputed state with an empty module-root
set when it was clamped) and `prepared`. -/
def reorgApply (env : Env) (st : BVState) (count : Nat)
    (gsPositions : Nat × Nat) (res : MessageResult) (msg : MsgMeta) :
    BVState × List Event :=
  let cancelEvents := (st.validations.filter (fun p =>
    decide (count ≤ p.1) && decide (p.1 < st.createdA) && p.2.hasCancel)).map
    (fun p => Event.cancelled p.1)
  let validations' := st.validations.filter (fun p =>
    !(decide (count ≤ p.1) && decide (p.1 < st.createdA)))
  let ncs := env.buildGlobalState res gsPositions.2
  let st1 := { st with
    validations := validations'
    nextCreateStartGS := ncs
    nextCreatePrevDelayed := msg.delayedMessagesRead
    nextCreateBatchReread := true
    createdA := count
    recordSentA := min st.recordSentA count }
  let st2 :=
    if count < st.validatedA then
      { st1 with
          validatedA := count
          lastValidGS := ncs
          dbLastValidated := some (ncs, []) }
    else st1
  ({ st2 with prepared := min st2.prepared count }, cancelEvents)

/-- `Reorg` (`block_validator.go` lines 773-830). -/
def reorgBV (cfg : BVConfig) (env : Env) (st : BVState) (count : Nat) :
    (Except GoErr Unit) × BVState × List Event :=
  if count ≤ 1 then (.error (.text "cannot reorg out genesis"), st, [])
  else if ¬st.chainCaughtUp then (.ok (), st, [])
  else if st.createdA < count then (.ok (), st, [])
  else
    match env.globalStatePositionsAtCount count with
    | .error e => (.error e, st, possiblyFatalEvents cfg st (some e))
    | .ok gsPositions =>
      match env.resultAtCount count with
      | .error e => (.error e, st, possiblyFatalEvents cfg st (some e))
      | .ok res =>
        match env.getMessage (count - 1) with
        | .error e => (.error e, st, possiblyFatalEvents cfg st (some e))
        | .ok msg => (.ok (), reorgApply env st count gsPositions res msg)

/-- Zero-initialized `BVState`, as Go zero-values the struct fields. -/
def bvState0 : BVState :=
  { chainCaughtUp := false, nextCreateBatch := 0, nextCreateBatchMsgCount := 0,
    nextCreateBatchReread := false, nextCreateStartGS := ⟨0, 0, 0, 0⟩,
    nextCreatePrevDelayed := 0, prepared := 0, nextRecordPrepared := none,
    lastValidGS := ⟨0, 0, 0, 0⟩, createdA := 0, recordSentA := 0, validatedA := 0,
    validations := [], dbLastValidated := none, currentWasmModuleRoot := 0,
    pendingWasmModuleRoot := 0, started := false, stopped := false }

/-- Config with `current-module-root = "current"`. -/
def c8Cfg : BVConfig := ⟨128, 1024, "current", true⟩

/-- Validator whose current wasm root is still unset (zero) and whose
pending root is 5. -/
def c8State : BVState := { bvState0 with pendingWasmModuleRoot := 5 }

/-- Validator with current root 3 and pending root 5. -/
def c8StateSet : BVState :=
  { bvState0 with currentWasmModuleRoot := 3, pendingWasmModuleRoot := 5 }

/-- Streamer that answers the genesis result query at count 1. -/
def c10Env : Env := { noEnv with
  resultAtCount := fun n => if n = 1 then .ok ⟨8, 9⟩ else .error .notFound }

/-- Config with `forward-blocks = 3`. -/
def c4Cfg : BVConfig := ⟨64, 3, "latest", true⟩

/-- Streamer with 100 processed messages. -/
def c4Env : Env := { noEnv with
  getProcessedMessageCount := .ok 100
  getMessage := fun _ => .ok ⟨0⟩
  resultAtCount := fun n => .ok ⟨n, n⟩ }

/-- Caught-up pipeline with `validated = recordSent = prepared = 2` and
`created = validated + forwardBlocks = 5`, mid-batch. -/
def c4State : BVState := { bvState0 with
  chainCaughtUp := true, createdA := 5, recordSentA := 2, validatedA := 2,
  prepared := 2, nextCreateStartGS := ⟨1, 1, 1, 1⟩, nextCreateBatchMsgCount := 100,
  started := true }

/-- Validation entry for position `p` with adjacent start/end states. -/
def c3Entry (p : Nat) : VEntry :=
  ⟨p, ⟨p, p, 1, p⟩, ⟨p + 1, p + 1, 1, p + 1⟩, ⟨0⟩, 0, 0⟩

/-- Oracles for a reorg run: positions, results and messages all resolve. -/
def c3Env : Env := { noEnv with
  globalStatePositionsAtCount := fun n => .ok (n, n)
  resultAtCount := fun n => .ok ⟨n, n⟩
  getMessage := fun _ => .ok ⟨7⟩
  buildGlobalState := fun r p => ⟨r.blockHash, r.sendRoot, p, 0⟩ }

/-- Caught-up pipeline at 4 with in-flight validations at 2 (with a
cancel handle) and 3 (without one). -/
def c3State : BVState := { bvState0 with
  chainCaughtUp := true, createdA := 4, recordSentA := 4, validatedA := 4,
  prepared := 4,
  validations := [(2, ⟨.validationSent, true, c3Entry 2, []⟩),
                  (3, ⟨.validationSent, false, c3Entry 3, []⟩)],
  started := true }

/-- A ready run agreeing with `c3Entry 3`'s end state. -/
def c2RunOk : VRun := ⟨true, 11, .ok ⟨4, 4, 1, 4⟩⟩

/-- A ready run that computed a different final global state. -/
def c2RunBad : VRun := ⟨true, 12, .ok ⟨9, 9, 9, 9⟩⟩

/-- Pipeline whose entry at `validated = 3` is ValidationSent with the
given runs. -/
def c2State (runs : List VRun) : BVState := { bvState0 with
  chainCaughtUp := true, createdA := 5, recordSentA := 5, validatedA := 3,
  lastValidGS := ⟨3, 3, 1, 3⟩,
  validations := [(3, ⟨.validationSent, true, c3Entry 3, runs⟩)],
  started := true }

/-- The cursor inequalities exactly as claimed (spec §8, invariant 1):
`0 ≤ validated ≤ recordSent ≤ created`, `created - validated ≤
ForwardBlocks`, `prepared - validated ≤ PrerecordedBlocks`. -/
def CursorInvClaimed (cfg : BVConfig) (st : BVState) : Prop :=
  0 ≤ st.validatedA ∧
  st.validatedA ≤ st.recordSentA ∧
  st.recordSentA ≤ st.createdA ∧
  st.createdA - st.validatedA ≤ cfg.forwardBlocks ∧
  st.prepared - st.validatedA ≤ cfg.prerecordedBlocks

/-- The pending record-prepare promise, when present and successful,
targets a position within the prerecord window and below `created`. -/
def promiseBoundB (cfg : BVConfig) (st : BVState) : Bool :=
  match st.nextRecordPrepared with
  | none => true
  | some pr =>
    match pr.result with
    | .error _ => true
    | .ok t =>
      decide (t ≤ st.validatedA + cfg.prerecordedBlocks) && decide (t ≤ st.createdA)

/-- The cursor invariant the worker loops actually maintain: as claimed
except that the creator may fill the forward window up to
`ForwardBlocks + 1` entries ahead of `validated` (its guard admits
`created ≤ validated + ForwardBlocks` and then advances), strengthened
with `prepared ≤ created` and the pending-promise bound needed for
induction. -/
def CursorInv (cfg : BVConfig) (st : BVState) : Prop :=
  0 ≤ st.validatedA ∧
  st.validatedA ≤ st.recordSentA ∧
  st.recordSentA ≤ st.createdA ∧
  st.createdA - st.validatedA ≤ cfg.forwardBlocks + 1 ∧
  st.prepared - st.validatedA ≤ cfg.prerecordedBlocks ∧
  st.prepared ≤ st.createdA ∧
  promiseBoundB cfg st = true


instance (cfg : BVConfig) (st : BVState) : Decidable (CursorInvClaimed cfg st) := by
  unfold CursorInvClaimed
  infer_instance

instance (cfg : BVConfig) (st : BVState) : Decidable (CursorInv cfg st) := by
  unfold CursorInv
  infer_instance

def c4CatchEnv : Env := { c6EnvB with
  getProcessedMessageCount := .ok 10
  getMessage := fun _ => .ok ⟨7⟩ }

def c4CatchState : BVState := { bvState0 with lastValidGS := ⟨1, 1, 1, 0⟩ }

/-! ## 4.H — History cache (`challengecache`)

Only the package's tests are part of the excerpt; the implementation is
modelled from spec §4.H and the expectations those tests encode. -/

/-- `Modelled from the spec:` the history-cache `Key` (spec §3 and the
`challengecache` tests): wavm module root, assertion hash, message range,
optional big-step range, optional small-step bound. -/
structure CacheKey where
  wavmModuleRoot : Nat
  assertionHash : Nat
  messageFrom : Nat
  messageTo : Nat
  bigStepRange : Option (Nat × Nat)
  toSmallStep : Option Nat
deriving DecidableEq, Repr

/-- `Modelled from the spec:` `determineFilePath` key validation (spec
§4.H and `Test_determineFilePath`): the message range must satisfy
`from < to` and, when a big-step range is present, be a one-step fork;
a present big-step range must itself be increasing and, when a small-step
bound is present, a one-step fork.  The canonical path is modelled by the
(injectively path-encoded) key itself. -/
def determineFilePath (key : CacheKey) : Except GoErr CacheKey :=
  if key.messageTo ≤ key.messageFrom then .error .messageRangeInvalid
  else if key.bigStepRange.isSome ∧ key.messageTo ≠ key.messageFrom + 1 then
    .error .messageRangeInvalid
  else
    match key.bigStepRange with
    | none => .ok key
    | some br =>
      if br.2 ≤ br.1 then .error .bigStepRangeInvalid
      else if key.toSmallStep.isSome ∧ br.2 ≠ br.1 + 1 then .error .bigStepRangeInvalid
      else .ok key

/-- The on-disk store: association of paths (canonical keys) to the hash
arrays their `roots.txt` files hold. -/
def cacheLookup (c : List (CacheKey × List Nat)) (k : CacheKey) : Option (List Nat) :=
  match c.find? (fun p => decide (p.1 = k)) with
  | some p => some p.2
  | none => none

/-- `Modelled from the spec:` `readStateRoots` (spec §4.H and
`TestReadWriteStateRoots`): with no bound, all hashes are read; with
bound `k`, exactly `k + 1` hashes are read, and fewer available hashes
surface the "only read N state roots" error. -/
def readStateRoots (content : List Nat) (readUpTo : Option Nat) :
    Except GoErr (List Nat) :=
  match readUpTo with
  | none => .ok content
  | some k =>
    if content.length < k + 1 then .error (.onlyReadStateRoots content.length)
    else .ok (content.take (k + 1))

/-- `Modelled from the spec:` `Cache.Put` (spec §4.H): fails with
`ErrFileAlreadyExists` when the target file exists, otherwise writes the
concatenated hashes. -/
def cachePut (c : List (CacheKey × List Nat)) (key : CacheKey) (roots : List Nat) :
    Except GoErr (List (CacheKey × List Nat)) :=
  match determineFilePath key with
  | .error e => .error e
  | .ok _ =>
    match cacheLookup c key with
    | some _ => .error .fileAlreadyExists
    | none => .ok ((key, roots) :: c)

/-- `Modelled from the spec:` `Cache.Get` (spec §4.H): resolves the path,
fails when the file does not exist, otherwise reads the roots up to the
optional bound. -/
def cacheGet (c : List (CacheKey × List Nat)) (key : CacheKey)
    (readUpTo : Option Nat) : Except GoErr (List Nat) :=
  match determineFilePath key with
  | .error e => .error e
  | .ok _ =>
    match cacheLookup c key with
    | none => .error .notFound
    | some content => readStateRoots content readUpTo

/-! ## S5 — Discrete-timeboost transaction priority queue

Only `heap_test.go` is part of the excerpt; the `timeBoostableTxs` heap
order is modelled from spec §S5: pop by bid descending, ties broken by
timestamp ascending. -/

/-- `Modelled from the spec:` a `boostableTx`: id, bid, and timestamp
(modelled as a `Nat` instant). -/
structure BoostableTx where
  id : String
  bid : Nat
  timestamp : Nat
deriving DecidableEq, Repr

/-- `Modelled from the spec:` the heap's `Less`: `a` pops before `b`
when its bid is higher, or bids tie and its timestamp is earlier. -/
def txLess (a b : BoostableTx) : Bool :=
  decide (b.bid < a.bid) ||
    (decide (a.bid = b.bid) && decide (a.timestamp < b.timestamp))

/-- Place a transaction before the first queue element it pops ahead of. -/
def insertTx (t : BoostableTx) : List BoostableTx → List BoostableTx
  | [] => [t]
  | x :: xs => if txLess t x then t :: x :: xs else x :: insertTx t xs

/-- `Modelled from the spec:` popping every element of the priority queue
built from `txs` yields the transactions in heap order (insertion sort by
`txLess`). -/
def popAll : List BoostableTx → List BoostableTx
  | [] => []
  | t :: rest => insertTx t (popAll rest)

-- ===================== THEOREMS =====================

theorem newStateHashes_length (l : List MHash) (n : Nat) (h : l ≠ []) :
    (newStateHashes l n).length = n := by
  obtain ⟨a, ha⟩ := Option.isSome_iff_exists.mp (List.getLast?_isSome.mpr h)
  have hl : 1 ≤ l.length := List.length_pos.mpr h
  simp only [newStateHashes, ha, List.length_take, List.length_append,
    List.length_replicate]
  omega

theorem newStateHashes_head (a : MHash) (l : List MHash) (n : Nat) (hn : 1 ≤ n) :
    (newStateHashes (a :: l) n).head? = some a := by
  obtain ⟨last, ha⟩ := Option.isSome_iff_exists.mp
    (List.getLast?_isSome.mpr (List.cons_ne_nil a l))
  obtain ⟨k, rfl⟩ : ∃ k, n = k + 1 := ⟨n - 1, by omega⟩
  simp [newStateHashes, ha, List.take_succ_cons]

theorem newStateHashes_of_length_le (l : List MHash) (n : Nat) (a : MHash)
    (hlen : l.length ≤ n) (ha : l.getLast? = some a) :
    newStateHashes l n = l ++ List.replicate (n - l.length) a := by
  have : (l ++ List.replicate (n - l.length) a).length = n := by
    simp; omega
  simp only [newStateHashes, ha]
  rw [List.take_of_length_le (le_of_eq this)]

theorem getLast?_append_replicate (l : List MHash) (a : MHash) (k : Nat)
    (h : l.getLast? = some a) :
    (l ++ List.replicate k a).getLast? = some a := by
  cases k with
  | zero => simpa using h
  | succ k =>
    rw [List.getLast?_append_of_ne_nil _ (by simp)]
    simp [List.getLast?_replicate]

/-- Behaviour of the hash-gathering loop started at machine start index 0
on a step-count–consistent machine position: it never fails, produces at
most `remaining` hashes, and if the machine terminates within the first
`r'` stepped positions the gathered hashes end with the machine-finished
hash of the terminal global state after at most `r'` of them. -/
theorem leavesLoop_spec (m : ArbMachine) (stepSize : Nat) (hs : 1 ≤ stepSize) :
    ∀ remaining it cur, cur = min (stepSize * it) m.totalSteps →
      ∃ roots, leavesLoop m 0 stepSize remaining it cur = .ok roots ∧
        roots.length ≤ remaining ∧
        (∀ r', 1 ≤ r' → r' ≤ remaining → m.totalSteps ≤ stepSize * (it + r') →
          roots.length ≤ r' ∧
          roots.getLast? = some (machineFinishedHash (m.gsAt m.totalSteps))) := by
  intro remaining
  induction remaining with
  | zero =>
    intro it cur _
    exact ⟨[], rfl, Nat.le_refl 0, fun r' h1 h2 _ => absurd (Nat.le_trans h1 h2) (by omega)⟩
  | succ r ih =>
    intro it cur hcur
    by_cases hfin : min (cur + stepSize) m.totalSteps = m.totalSteps
    · refine ⟨[machineFinishedHash (m.gsAt m.totalSteps)], ?_, by simp, ?_⟩
      · simp [leavesLoop, hfin]
      · intro r' h1 _ _
        exact ⟨by simpa using h1, by simp⟩
    · -- the machine is still running after the step
      have hrun : cur + stepSize < m.totalSteps := by
        rcases Nat.lt_or_ge (cur + stepSize) m.totalSteps with h | h
        · exact h
        · exact absurd (Nat.min_eq_right h) hfin
      have hit : stepSize * it < m.totalSteps := by
        rcases Nat.lt_or_ge (stepSize * it) m.totalSteps with h | h
        · exact h
        · rw [Nat.min_eq_right h] at hcur; omega
      have hcur' : cur = stepSize * it := by
        rw [Nat.min_eq_left (Nat.le_of_lt hit)] at hcur; exact hcur
      have hmul : stepSize * (it + 1) = stepSize * it + stepSize := by ring
      have hmin : min (cur + stepSize) m.totalSteps = cur + stepSize :=
        Nat.min_eq_left (Nat.le_of_lt hrun)
      have hpos : 0 + stepSize * (it + 1) = cur + stepSize := by omega
      obtain ⟨rest, hrest, hlen, hfin'⟩ := ih (it + 1) (cur + stepSize)
        (by rw [Nat.min_eq_left (by omega : stepSize * (it + 1) ≤ m.totalSteps)]; omega)
      refine ⟨m.hashAt (cur + stepSize) :: rest, ?_, by simpa using hlen, ?_⟩
      · simp only [leavesLoop, hmin]
        rw [if_neg (by omega : ¬cur + stepSize = m.totalSteps),
          if_neg (by rw [hpos]; simp), hrest]
      · intro r' h1 h2 h3
        have hr2 : 2 ≤ r' := by
          rcases Nat.eq_or_lt_of_le h1 with h | h
          · exfalso; rw [← h] at h3; omega
          · omega
        obtain ⟨hl, hlast⟩ := hfin' (r' - 1) (by omega) (by omega)
          (by have heq : it + 1 + (r' - 1) = it + r' := by omega
              rw [heq]; exact h3)
        have hne : rest ≠ [] := by
          intro h; rw [h] at hlast; simp at hlast
        constructor
        · simp; omega
        · cases rest with
          | nil => exact absurd rfl hne
          | cons b bs => rw [List.getLast?_cons_cons]; exact hlast

/-- C1: for `GetLeavesWithStepSize` called with machine start index 0 and
`numDesiredLeaves = N ≥ 1`, the first returned hash is
`Keccak256("Machine finished:" ‖ initialGS.Hash())`, the returned sequence
has length exactly `N`, and if the machine terminates within the stepped
range the final hash is the machine-finished hash of the terminal global
state and the sequence ends in repetitions of that hash up to length `N`. -/
theorem getLeavesWithStepSize_zero_start (m : ArbMachine) (stepSize n : Nat)
    (hn : 1 ≤ n) (hs : 1 ≤ stepSize) :
    ∃ leaves, getLeavesWithStepSize m 0 stepSize n = .ok leaves ∧
      leaves.head? = some (machineFinishedHash (m.gsAt 0)) ∧
      leaves.length = n ∧
      (m.totalSteps ≤ stepSize * (n - 1) →
        leaves.getLast? = some (machineFinishedHash (m.gsAt m.totalSteps)) ∧
        ∃ k, 1 ≤ k ∧ k ≤ n ∧
          leaves = leaves.take k ++
            List.replicate (n - k) (machineFinishedHash (m.gsAt m.totalSteps))) := by
  have hs0 : min 0 m.totalSteps = 0 := Nat.zero_min m.totalSteps
  by_cases h1 : n = 1
  · subst h1
    refine ⟨[machineFinishedHash (m.gsAt 0)], ?_, rfl, rfl, ?_⟩
    · simp [getLeavesWithStepSize, hs0]
    · intro hterm
      have ht0 : m.totalSteps = 0 := by omega
      rw [ht0]
      exact ⟨rfl, 1, Nat.le_refl 1, Nat.le_refl 1, by simp⟩
  · have hn2 : 2 ≤ n := by omega
    obtain ⟨rest, hrest, hlen, hterm⟩ :=
      leavesLoop_spec m stepSize hs n 0 0 (by rw [Nat.mul_zero, hs0])
    set fh0 := machineFinishedHash (m.gsAt 0) with hfh0
    set l := fh0 :: rest with hl
    refine ⟨newStateHashes l n, ?_, ?_, ?_, ?_⟩
    · simp only [getLeavesWithStepSize, hs0, if_neg h1, hrest]
      simp [hl]
    · exact newStateHashes_head _ _ _ hn
    · exact newStateHashes_length _ _ (List.cons_ne_nil _ _)
    · intro htm
      obtain ⟨hrl, hrlast⟩ := hterm (n - 1) (by omega) (by omega)
        (by simpa using htm)
      have hrne : rest ≠ [] := by
        intro h; rw [h] at hrlast; simp at hrlast
      have hllast : l.getLast? = some (machineFinishedHash (m.gsAt m.totalSteps)) := by
        rw [hl]
        cases rest with
        | nil => exact absurd rfl hrne
        | cons b bs => rw [List.getLast?_cons_cons]; exact hrlast
      have hllen : l.length ≤ n := by rw [hl]; simp; omega
      have hpad := newStateHashes_of_length_le l n _ hllen hllast
      refine ⟨?_, l.length, by simp [hl], hllen, ?_⟩
      · rw [hpad]
        exact getLast?_append_replicate l _ _ hllast
      · rw [hpad, List.take_left]


/-- Witness for `getLeavesWithStepSize_zero_start` at a concrete machine
(10 total steps, step size 4, 5 desired leaves). -/
theorem getLeavesWithStepSize_zero_start_witness :
    (1 : Nat) ≤ 5 ∧ (1 : Nat) ≤ 4 ∧
    ∃ leaves, getLeavesWithStepSize c1Machine 0 4 5 = .ok leaves ∧
      leaves.head? = some (machineFinishedHash (c1Machine.gsAt 0)) ∧
      leaves.length = 5 ∧
      (c1Machine.totalSteps ≤ 4 * (5 - 1) →
        leaves.getLast? = some (machineFinishedHash (c1Machine.gsAt c1Machine.totalSteps)) ∧
        ∃ k, 1 ≤ k ∧ k ≤ 5 ∧
          leaves = leaves.take k ++
            List.replicate (5 - k) (machineFinishedHash (c1Machine.gsAt c1Machine.totalSteps))) :=
  ⟨by decide, by decide,
    getLeavesWithStepSize_zero_start c1Machine 4 5 (by decide) (by decide)⟩


/-- C5: run of `findBatchAfterMessageCount` hitting an "accumulator not
found" batch.  The error handler narrows `high` but then falls through to
the comparison chain with the zero value `batchMsgCount = 0`, which for a
nonzero `msgCount` also narrows `low`, so the next iteration fails with
the `high < low` error instead of continuing the search (which, per the
invariants stated in the source comment, would have found
`messageCount(0) = 1 = msgCount` and returned batch 1).  `msgCount = 0`
still returns 0. -/
theorem findBatchSearch_accumulator_not_found_run :
    c5Env.getBatchCount = .ok 2 ∧
    c5Env.getBatchMessageCount 0 = .ok 1 ∧
    c5Env.getBatchMessageCount 1 = .error .accumulatorNotFound ∧
    findBatchAfterMessageCount c5Env 1 = .error (.highBelowLow 1 1 2) ∧
    findBatchAfterMessageCount c5Env 0 = .ok 0 :=
  ⟨rfl, rfl, rfl, rfl, rfl⟩

/-- C6: behaviour of `ExecutionStateMsgCount`: rejects `PosInBatch != 0`
with an error whose text starts with "position in batch must be zero";
accepts the genesis state (Batch 1, PosInBatch 0, spec section 3) with
count 1; and, once the preceding batch's message count and the locally
validated state at it are resolved, returns `ErrChainCatchingUp` when the
validated state's batch is behind the batch preceding `state.Batch`,
`ErrNoExecutionState` when the streamer's result at the computed message
count disagrees with the claimed state, and otherwise that message count
(the count of batch `state.Batch - 1`). -/
theorem executionStateMsgCount_spec (env : Env) (state : GoGlobalState) :
    (state.posInBatch ≠ 0 →
      executionStateMsgCount env state = .error (.posInBatchNotZero state.posInBatch) ∧
      ∃ rest, goErrText (.posInBatchNotZero state.posInBatch) =
        "position in batch must be zero" ++ rest) ∧
    (state.batch = 1 → state.posInBatch = 0 →
      executionStateMsgCount env state = .ok 1) ∧
    (state.posInBatch = 0 → state.batch ≠ 1 →
      ∀ messageCount ves,
        env.getBatchMessageCount (u64pred state.batch) = .ok messageCount →
        executionStateAtMessageNumberImpl env (u64pred messageCount) = .ok ves →
        ((ves.batch < u64pred state.batch →
            executionStateMsgCount env state = .error .chainCatchingUp) ∧
          (¬ves.batch < u64pred state.batch →
            ∀ res, env.resultAtCount messageCount = .ok res →
              ((res.blockHash ≠ state.blockHash ∨ res.sendRoot ≠ state.sendRoot →
                  executionStateMsgCount env state = .error .noExecutionState) ∧
                (res.blockHash = state.blockHash → res.sendRoot = state.sendRoot →
                  executionStateMsgCount env state = .ok messageCount))))) := by
  refine ⟨?_, ?_, ?_⟩
  · intro hpos
    refine ⟨by simp [executionStateMsgCount, hpos], ", but got " ++ toString state.posInBatch, ?_⟩
    show "position in batch must be zero, but got " ++ toString state.posInBatch = _
    have hsplit : ("position in batch must be zero, but got " : String) =
        "position in batch must be zero" ++ ", but got " := by decide
    rw [hsplit, String.append_assoc]
  · intro hb hpos
    simp [executionStateMsgCount, hb, hpos]
  · intro hpos hb messageCount ves hmc hves
    refine ⟨?_, ?_⟩
    · intro hlt
      simp [executionStateMsgCount, hpos, hb, hmc, hves, hlt]
    · intro hge res hres
      refine ⟨?_, ?_⟩
      · intro hmm
        rcases hmm with hmm | hmm
        · simp [executionStateMsgCount, hpos, hb, hmc, hves, hge, hres, hmm]
        · simp [executionStateMsgCount, hpos, hb, hmc, hves, hge, hres, hmm]
      · intro hbh hsr
        simp [executionStateMsgCount, hpos, hb, hmc, hves, hge, hres, hbh, hsr]



theorem executionStateMsgCount_spec_witness :
    executionStateMsgCount c6EnvB ⟨0, 0, 0, 1⟩ = .error (.posInBatchNotZero 1) ∧
    executionStateMsgCount c6EnvB ⟨5, 5, 1, 0⟩ = .ok 1 ∧
    executionStateMsgCount c6EnvA ⟨3, 3, 3, 0⟩ = .error .chainCatchingUp ∧
    executionStateMsgCount c6EnvB ⟨11, 10, 3, 0⟩ = .error .noExecutionState ∧
    executionStateMsgCount c6EnvB ⟨10, 10, 3, 0⟩ = .ok 10 := by
  refine ⟨((executionStateMsgCount_spec c6EnvB ⟨0, 0, 0, 1⟩).1 (by decide)).1,
    (executionStateMsgCount_spec c6EnvB ⟨5, 5, 1, 0⟩).2.1 rfl rfl, ?_, ?_, ?_⟩
  · exact ((executionStateMsgCount_spec c6EnvA ⟨3, 3, 3, 0⟩).2.2 rfl (by decide)
      10 ⟨9, 9, 0, 9⟩ rfl rfl).1 (by decide)
  · exact (((executionStateMsgCount_spec c6EnvB ⟨11, 10, 3, 0⟩).2.2 rfl (by decide)
      10 ⟨9, 9, 2, 4⟩ rfl rfl).2 (by decide) ⟨10, 10⟩ rfl).1 (by decide)
  · exact (((executionStateMsgCount_spec c6EnvB ⟨10, 10, 3, 0⟩).2.2 rfl (by decide)
      10 ⟨9, 9, 2, 4⟩ rfl rfl).2 (by decide) ⟨10, 10⟩ rfl).2 rfl rfl


/-- C8 counterexample: with option "current", pending root 5 and an
*unset* (zero) current root, the hash 7 — nonzero, different from the
current root and from the pending root — is accepted and becomes the
current root, where the claim demands an error and an unchanged root. -/
theorem setCurrentWasmModuleRoot_unset_counterexample :
    c8Cfg.currentModuleRoot = "current" ∧
    (7 : Nat) ≠ 0 ∧ (7 : Nat) ≠ c8State.currentWasmModuleRoot ∧
    (7 : Nat) ≠ c8State.pendingWasmModuleRoot ∧
    (setCurrentWasmModuleRoot c8Cfg c8State 7).1 = .ok () ∧
    (setCurrentWasmModuleRoot c8Cfg c8State 7).2.currentWasmModuleRoot = 7 ∧
    c8State.currentWasmModuleRoot = 0 :=
  ⟨rfl, by decide, by decide, by decide, rfl, rfl, rfl⟩

/-- C8 (amended): the zero hash is rejected and nothing changes; setting
the current root again is a no-op; a nonzero hash equal to the pending
root becomes the current root; for any other nonzero hash, provided a
current root is already set, option "current" makes the call fail and
leaves the roots unchanged; when the current root is unset the hash is
adopted instead. -/
theorem setCurrentWasmModuleRoot_rules (cfg : BVConfig) (st : BVState) (hash : Nat) :
    (hash = 0 →
      setCurrentWasmModuleRoot cfg st hash =
        (.error (.text "trying to set zero as wasmModuleRoot"), st)) ∧
    (hash ≠ 0 → hash = st.currentWasmModuleRoot →
      setCurrentWasmModuleRoot cfg st hash = (.ok (), st)) ∧
    (hash ≠ 0 → hash = st.pendingWasmModuleRoot →
      (setCurrentWasmModuleRoot cfg st hash).1 = .ok () ∧
      (setCurrentWasmModuleRoot cfg st hash).2.currentWasmModuleRoot = hash) ∧
    (hash ≠ 0 → hash ≠ st.currentWasmModuleRoot → hash ≠ st.pendingWasmModuleRoot →
      st.currentWasmModuleRoot ≠ 0 → cfg.currentModuleRoot = "current" →
      setCurrentWasmModuleRoot cfg st hash =
        (.error (.text "unexpected wasmModuleRoot"), st)) ∧
    (hash ≠ 0 → hash ≠ st.currentWasmModuleRoot → st.currentWasmModuleRoot = 0 →
      (setCurrentWasmModuleRoot cfg st hash).1 = .ok () ∧
      (setCurrentWasmModuleRoot cfg st hash).2.currentWasmModuleRoot = hash) := by
  refine ⟨?_, ?_, ?_, ?_, ?_⟩
  · intro h0
    simp [setCurrentWasmModuleRoot, h0]
  · intro h0 hcur
    simp [setCurrentWasmModuleRoot, h0, hcur.symm]
  · intro h0 hpend
    by_cases hcur : hash = st.currentWasmModuleRoot
    · constructor
      · simp [setCurrentWasmModuleRoot, h0, hcur.symm]
      · simp [setCurrentWasmModuleRoot, h0, hcur.symm]
    · by_cases hz : st.currentWasmModuleRoot = 0
      · constructor <;> simp [setCurrentWasmModuleRoot, h0, hcur, hz]
      · constructor <;>
          simp [setCurrentWasmModuleRoot, h0, hz, hcur, hpend.symm]
  · intro h0 hcur hpend hz hopt
    have hps : st.pendingWasmModuleRoot ≠ hash := fun h => hpend h.symm
    simp [setCurrentWasmModuleRoot, h0, hcur, hps, hz, hopt]
  · intro h0 hcur hz
    constructor <;> simp [setCurrentWasmModuleRoot, h0, hz, hcur]

/-- Witness for `setCurrentWasmModuleRoot_rules` on the validator with
current root 3 and pending root 5 under option "current". -/
theorem setCurrentWasmModuleRoot_rules_witness :
    setCurrentWasmModuleRoot c8Cfg c8StateSet 0 =
      (.error (.text "trying to set zero as wasmModuleRoot"), c8StateSet) ∧
    setCurrentWasmModuleRoot c8Cfg c8StateSet 3 = (.ok (), c8StateSet) ∧
    (setCurrentWasmModuleRoot c8Cfg c8StateSet 5).2.currentWasmModuleRoot = 5 ∧
    setCurrentWasmModuleRoot c8Cfg c8StateSet 7 =
      (.error (.text "unexpected wasmModuleRoot"), c8StateSet) :=
  ⟨(setCurrentWasmModuleRoot_rules c8Cfg c8StateSet 0).1 rfl,
   (setCurrentWasmModuleRoot_rules c8Cfg c8StateSet 3).2.1 (by decide) rfl,
   ((setCurrentWasmModuleRoot_rules c8Cfg c8StateSet 5).2.2.1 (by decide) rfl).2,
   (setCurrentWasmModuleRoot_rules c8Cfg c8StateSet 7).2.2.2.1 (by decide) (by decide)
     (by decide) (by decide) rfl⟩

/-- C10: when no last-validated record was loaded before `Start`
(`lastValidGS.Batch = 0`), `Start` queries the streamer's result at
message count 1 and sets `lastValidGS` to (BlockHash, SendRoot, Batch 1,
PosInBatch 0) from it before launching the worker-spawning thread; if the
query fails, `Start` returns the error and launches nothing. -/
theorem startBV_spec (env : Env) (st : BVState) (h : st.lastValidGS.batch = 0) :
    (∀ g, env.resultAtCount 1 = .ok g →
      startBV env st =
        .ok ({ st with started := true, lastValidGS := ⟨g.blockHash, g.sendRoot, 1, 0⟩ },
          true)) ∧
    (∀ e, env.resultAtCount 1 = .error e → startBV env st = .error e) := by
  constructor
  · intro g hg
    simp [startBV, h, hg]
  · intro e he
    simp [startBV, h, he]

/-- Witness for `startBV_spec`: the zero-initialized validator adopts the
streamer's genesis result, and fails when the streamer fails. -/
theorem startBV_spec_witness :
    startBV c10Env bvState0 =
      .ok ({ bvState0 with started := true, lastValidGS := ⟨8, 9, 1, 0⟩ }, true) ∧
    startBV noEnv bvState0 = .error .notFound :=
  ⟨(startBV_spec c10Env bvState0 rfl).1 ⟨8, 9⟩ rfl,
   (startBV_spec noEnv bvState0 rfl).2 .notFound rfl⟩


/-- C3: `Reorg(count)` rejects `count ≤ 1` without touching any state;
it is a no-op when the pipeline has not caught up or `created < count`;
otherwise (with the streamer queries succeeding) it sets
`created = count`, clamps `recordSent`, `validated` and `prepared` to
`count`, cancels (when a cancel handle is installed) and deletes every
validations-map entry with key in `[count, created)` — hence, as every
live key is below `created`, no key ≥ `count` survives — and, when
`validated` was clamped, resets `lastValidGS` to the recomputed start
state and persists it with an empty module-root set. -/
theorem reorg_spec (cfg : BVConfig) (env : Env) (st : BVState) (count : Nat) :
    (count ≤ 1 →
      reorgBV cfg env st count = (.error (.text "cannot reorg out genesis"), st, [])) ∧
    (1 < count → (st.chainCaughtUp = false ∨ st.createdA < count) →
      reorgBV cfg env st count = (.ok (), st, [])) ∧
    (1 < count → st.chainCaughtUp = true → count ≤ st.createdA →
      ∀ gsp res msg,
        env.globalStatePositionsAtCount count = .ok gsp →
        env.resultAtCount count = .ok res →
        env.getMessage (count - 1) = .ok msg →
        (reorgBV cfg env st count).1 = .ok () ∧
        (reorgBV cfg env st count).2.1.createdA = count ∧
        (reorgBV cfg env st count).2.1.recordSentA = min st.recordSentA count ∧
        (reorgBV cfg env st count).2.1.validatedA = min st.validatedA count ∧
        (reorgBV cfg env st count).2.1.prepared = min st.prepared count ∧
        (∀ p ∈ st.validations, count ≤ p.1 → p.1 < st.createdA →
          p.2.hasCancel = true → Event.cancelled p.1 ∈ (reorgBV cfg env st count).2.2) ∧
        (∀ q ∈ (reorgBV cfg env st count).2.1.validations,
          q.1 < count ∨ st.createdA ≤ q.1) ∧
        ((∀ p ∈ st.validations, p.1 < st.createdA) →
          ∀ q ∈ (reorgBV cfg env st count).2.1.validations, q.1 < count) ∧
        (count < st.validatedA →
          (reorgBV cfg env st count).2.1.lastValidGS = env.buildGlobalState res gsp.2 ∧
          (reorgBV cfg env st count).2.1.dbLastValidated =
            some (env.buildGlobalState res gsp.2, []))) := by
  refine ⟨?_, ?_, ?_⟩
  · intro h
    unfold reorgBV
    rw [if_pos h]
  · intro h1 h2
    unfold reorgBV
    rw [if_neg (by omega)]
    rcases h2 with h2 | h2
    · rw [if_pos (by simp [h2])]
    · by_cases hcc : st.chainCaughtUp = true
      · rw [if_neg (by simp [hcc]), if_pos h2]
      · rw [if_pos (by simp [Bool.eq_false_iff.mpr hcc])]
  · intro h1 hc hcr gsp res msg hgsp hres hmsg
    have hkey : reorgBV cfg env st count = (.ok (), reorgApply env st count gsp res msg) := by
      unfold reorgBV
      rw [if_neg (by omega), if_neg (by simp [hc]), if_neg (by omega), hgsp, hres, hmsg]
    rw [hkey]
    refine ⟨rfl, ?_, ?_, ?_, ?_, ?_, ?_, ?_, ?_⟩
    · by_cases hv : count < st.validatedA <;> simp [reorgApply, hv]
    · by_cases hv : count < st.validatedA <;> simp [reorgApply, hv]
    · by_cases hv : count < st.validatedA <;> simp [reorgApply, hv] <;> omega
    · by_cases hv : count < st.validatedA <;> simp [reorgApply, hv]
    · intro p hp hge hlt hcanc
      simp only [reorgApply]
      exact List.mem_map.mpr ⟨p, List.mem_filter.mpr ⟨hp, by simp [hge, hlt, hcanc]⟩, rfl⟩
    · intro q hq
      by_cases hv : count < st.validatedA <;>
        simp only [reorgApply, hv, if_pos, if_neg, if_true, if_false] at hq
      all_goals
        obtain ⟨-, hpred⟩ := List.mem_filter.mp hq
      all_goals
        simp at hpred
        omega
    · intro hall q hq
      by_cases hv : count < st.validatedA <;>
        simp only [reorgApply, hv, if_pos, if_neg, if_true, if_false] at hq
      all_goals
        obtain ⟨hqmem, hpred⟩ := List.mem_filter.mp hq
      all_goals
        simp at hpred
        have := hall q hqmem
        omega
    · intro hv
      constructor <;> simp [reorgApply, hv]
/-- Witness for `reorg_spec`: reorg of the concrete caught-up pipeline at
4 down to 2: the call succeeds, the cursors clamp to 2, the in-flight
validation at 2 is cancelled and the recomputed state is persisted. -/
theorem reorg_spec_witness :
    (reorgBV c4Cfg c3Env c3State 2).1 = .ok () ∧
    (reorgBV c4Cfg c3Env c3State 2).2.1.createdA = 2 ∧
    (reorgBV c4Cfg c3Env c3State 2).2.1.validatedA = 2 ∧
    Event.cancelled 2 ∈ (reorgBV c4Cfg c3Env c3State 2).2.2 ∧
    (reorgBV c4Cfg c3Env c3State 2).2.1.dbLastValidated = some (⟨2, 2, 2, 0⟩, []) := by
  obtain ⟨-, -, hmain⟩ := reorg_spec c4Cfg c3Env c3State 2
  obtain ⟨ha, hb, -, hd, -, hf, -, -, hi⟩ :=
    hmain (by decide) rfl (by decide) (2, 2) ⟨2, 2⟩ ⟨7⟩ rfl rfl rfl
  refine ⟨ha, hb, hd.trans (by decide), ?_, (hi (by decide)).2.trans rfl⟩
  exact hf (2, ⟨.validationSent, true, c3Entry 2, []⟩) (by decide)
    (by decide) (by decide) rfl


/-- Behaviour of the run-check loop when every run is ready and delivered
a final global state: a mismatching run writes the debug artifact,
publishes to the fatal channel iff `FailureIsFatal`, and returns a reorg
request; all runs matching advances the validated state. -/
theorem processRuns_spec (cfg : BVConfig) (st : BVState) (pos : Nat)
    (vstat : VStatus) (room : Nat) (hst : st.stopped = false) :
    ∀ runs acc,
      (∀ r ∈ runs, r.ready = true) →
      (∀ r ∈ runs, ∃ g, r.current = .ok g) →
      ((∃ r ∈ runs, ∃ g, r.current = .ok g ∧ g ≠ vstat.entry.endState) →
        (processRuns cfg st pos vstat room runs acc).res = .ret (some pos) ∧
        (∃ mr, Event.wroteDebugFile pos mr ∈
          (processRuns cfg st pos vstat room runs acc).events) ∧
        (Event.fatalPublished ∈ (processRuns cfg st pos vstat room runs acc).events ↔
          cfg.failureIsFatal = true) ∧
        (processRuns cfg st pos vstat room runs acc).st = st) ∧
      ((∀ r ∈ runs, r.current = .ok vstat.entry.endState) →
        (processRuns cfg st pos vstat room runs acc).res = .next ∧
        (processRuns cfg st pos vstat room runs acc).st.lastValidGS =
          vstat.entry.endState ∧
        (processRuns cfg st pos vstat room runs acc).st.validatedA = pos + 1 ∧
        (∃ roots, (processRuns cfg st pos vstat room runs acc).st.dbLastValidated =
          some (vstat.entry.endState, roots)) ∧
        Event.markValid pos vstat.entry.endState.blockHash ∈
          (processRuns cfg st pos vstat room runs acc).events) := by
  intro runs
  induction runs with
  | nil =>
    intro acc _ _
    refine ⟨fun h => absurd h (by simp), fun _ => ⟨rfl, rfl, rfl, ⟨acc.reverse, rfl⟩, ?_⟩⟩
    simp [processRuns]
  | cons run rest ih =>
    intro acc hready hok
    have hrdy : run.ready = true := hready run (by simp)
    obtain ⟨g, hg⟩ := hok run (by simp)
    by_cases hge : g = vstat.entry.endState
    · -- this run matches: the loop recurses
      have hkey : processRuns cfg st pos vstat room (run :: rest) acc =
          processRuns cfg st pos vstat room rest (run.wasmModuleRoot :: acc) := by
        simp only [processRuns]
        rw [if_neg (by simp [hrdy]), hg]
        simp [hge]
      obtain ⟨ihm, ihs⟩ := ih (run.wasmModuleRoot :: acc)
        (fun r hr => hready r (by simp [hr])) (fun r hr => hok r (by simp [hr]))
      rw [hkey]
      constructor
      · intro hmm
        obtain ⟨r, hr, g', hg', hne⟩ := hmm
        rcases List.mem_cons.mp hr with rfl | hr
        · rw [hg] at hg'
          have hgg : g = g' := by injection hg'
          exact absurd (show g' = vstat.entry.endState by rw [← hgg]; exact hge) hne
        · exact ihm ⟨r, hr, g', hg', hne⟩
      · intro hall
        exact ihs (fun r hr => hall r (by simp [hr]))
    · -- first mismatching run: debug file + possible fatal + reorg request
      have hkey : processRuns cfg st pos vstat room (run :: rest) acc =
          { res := .ret (some pos), st := st,
            events := .wroteDebugFile pos run.wasmModuleRoot ::
              possiblyFatalEvents cfg st (some (.text "validation failed")),
            room := room } := by
        simp only [processRuns]
        rw [if_neg (by simp [hrdy]), hg]
        simp [hge]
      rw [hkey]
      constructor
      · intro _
        refine ⟨rfl, ⟨run.wasmModuleRoot, by simp⟩, ?_, rfl⟩
        by_cases hf : cfg.failureIsFatal = true <;>
          simp [possiblyFatalEvents, hst, hf]
      · intro hall
        have hthis := hall run (by simp)
        rw [hg] at hthis
        have hgg : g = vstat.entry.endState := by injection hthis
        exact absurd hgg hge

/-- C2: one validator-loop iteration at the entry at `p = validated` with
status ValidationSent, matching start state, every run ready with a
delivered final state, and the validator not stopped: if any run's final
global state differs from the entry's end state, a debug artifact is
written, the error is published to the fatal channel iff
`FailureIsFatal`, and a reorg request to `p` is returned; if all runs
agree with the end state, `lastValidGS` becomes the entry's end state,
the last-validated record is persisted, `MarkValid` is launched on the
recorder, and the validated cursor advances to `p + 1`. -/
theorem advanceValidations_validationSent (cfg : BVConfig) (st : BVState)
    (spawnRuns : Nat → List VRun) (pos room : Nat) (vstat : VStatus)
    (hlt : pos < st.recordSentA)
    (hlook : lookupValidation st.validations pos = some vstat)
    (hsent : vstat.status = .validationSent)
    (hpos : pos = st.validatedA)
    (hstart : vstat.entry.start = st.lastValidGS)
    (hready : ∀ r ∈ vstat.runs, r.ready = true)
    (hok : ∀ r ∈ vstat.runs, ∃ g, r.current = .ok g)
    (hst : st.stopped = false) :
    ((∃ r ∈ vstat.runs, ∃ g, r.current = .ok g ∧ g ≠ vstat.entry.endState) →
      (validationIterationBody cfg st spawnRuns pos room).res = .ret (some pos) ∧
      (∃ mr, Event.wroteDebugFile pos mr ∈
        (validationIterationBody cfg st spawnRuns pos room).events) ∧
      (Event.fatalPublished ∈ (validationIterationBody cfg st spawnRuns pos room).events ↔
        cfg.failureIsFatal = true)) ∧
    ((∀ r ∈ vstat.runs, r.current = .ok vstat.entry.endState) →
      (validationIterationBody cfg st spawnRuns pos room).res = .next ∧
      (validationIterationBody cfg st spawnRuns pos room).st.lastValidGS =
        vstat.entry.endState ∧
      (validationIterationBody cfg st spawnRuns pos room).st.validatedA = pos + 1 ∧
      (∃ roots, (validationIterationBody cfg st spawnRuns pos room).st.dbLastValidated =
        some (vstat.entry.endState, roots)) ∧
      Event.markValid pos vstat.entry.endState.blockHash ∈
        (validationIterationBody cfg st spawnRuns pos room).events) := by
  have hkey : validationIterationBody cfg st spawnRuns pos room =
      processRuns cfg st pos vstat room vstat.runs [] := by
    simp only [validationIterationBody, hlook]
    rw [if_neg (by omega), if_neg (by simp [hsent]), if_pos ⟨hsent, hpos⟩,
      if_neg (by simp [hstart])]
  obtain ⟨hm, hs⟩ := processRuns_spec cfg st pos vstat room hst vstat.runs [] hready hok
  rw [hkey]
  exact ⟨fun h => ⟨(hm h).1, (hm h).2.1, (hm h).2.2.1⟩, hs⟩

/-- Witness for `advanceValidations_validationSent` on the concrete
pipeline at `validated = 3`: a mismatching run yields the debug file, the
fatal publish and the reorg pointer; a single agreeing run advances the
cursor and persists the new state. -/
theorem advanceValidations_validationSent_witness :
    ((validationIterationBody c4Cfg (c2State [c2RunOk, c2RunBad]) (fun _ => []) 3 10).res =
      .ret (some 3) ∧
      Event.fatalPublished ∈
        (validationIterationBody c4Cfg (c2State [c2RunOk, c2RunBad]) (fun _ => []) 3 10).events) ∧
    ((validationIterationBody c4Cfg (c2State [c2RunOk]) (fun _ => []) 3 10).res = .next ∧
      (validationIterationBody c4Cfg (c2State [c2RunOk]) (fun _ => []) 3 10).st.validatedA = 4 ∧
      (validationIterationBody c4Cfg (c2State [c2RunOk]) (fun _ => []) 3 10).st.lastValidGS =
        ⟨4, 4, 1, 4⟩) := by
  constructor
  · obtain ⟨hm, -⟩ := advanceValidations_validationSent c4Cfg (c2State [c2RunOk, c2RunBad])
      (fun _ => []) 3 10 ⟨.validationSent, true, c3Entry 3, [c2RunOk, c2RunBad]⟩
      (by decide) rfl rfl rfl rfl
      (by intro r hr; fin_cases hr <;> rfl)
      (by intro r hr; fin_cases hr
          · exact ⟨⟨4, 4, 1, 4⟩, rfl⟩
          · exact ⟨⟨9, 9, 9, 9⟩, rfl⟩)
      rfl
    obtain ⟨h1, -, h3⟩ := hm ⟨c2RunBad, by simp [c2RunBad], ⟨9, 9, 9, 9⟩, rfl, by decide⟩
    exact ⟨h1, h3.mpr rfl⟩
  · obtain ⟨-, hs⟩ := advanceValidations_validationSent c4Cfg (c2State [c2RunOk])
      (fun _ => []) 3 10 ⟨.validationSent, true, c3Entry 3, [c2RunOk]⟩
      (by decide) rfl rfl rfl rfl
      (by intro r hr; fin_cases hr; rfl)
      (by intro r hr; fin_cases hr; exact ⟨⟨4, 4, 1, 4⟩, rfl⟩)
      rfl
    obtain ⟨h1, h2, h3, -, -⟩ := hs (by intro r hr; fin_cases hr; rfl)
    exact ⟨h1, h3, h2⟩


theorem promiseBoundB_of (cfg : BVConfig) (st st' : BVState)
    (hsame : st'.nextRecordPrepared = st.nextRecordPrepared)
    (hval : st.validatedA ≤ st'.validatedA) (hcre : st.createdA ≤ st'.createdA)
    (h : promiseBoundB cfg st = true) : promiseBoundB cfg st' = true := by
  unfold promiseBoundB at h ⊢
  rw [hsame]
  rcases hst : st.nextRecordPrepared with _ | pr
  · rfl
  · rw [hst] at h
    rcases hres : pr.result with e | t
    · simp [hres]
    · simp [hres] at h ⊢
      omega

theorem cursorInv_success_update (cfg : BVConfig) (st1 : BVState) (pos : Nat)
    (vals : List (Nat × VStatus)) (gs : GoGlobalState) (pd : Nat)
    (h : CursorInv cfg st1) (hpos : pos = st1.createdA)
    (hguard : st1.createdA ≤ st1.validatedA + cfg.forwardBlocks) :
    CursorInv cfg
      { st1 with
          validations := vals
          nextCreateStartGS := gs
          nextCreatePrevDelayed := pd
          createdA := pos + 1 } := by
  obtain ⟨h0, h1, h2, h3, h4, h5, h6⟩ := h
  refine ⟨Nat.zero_le _, h1,
    show st1.recordSentA ≤ pos + 1 by omega,
    show pos + 1 - st1.validatedA ≤ cfg.forwardBlocks + 1 by omega,
    h4,
    show st1.prepared ≤ pos + 1 by omega,
    promiseBoundB_of cfg st1 _ rfl (Nat.le_refl _)
      (show st1.createdA ≤ pos + 1 by omega) h6⟩

theorem createFinish_preserves (cfg : BVConfig) (pos : Nat) (msg : MsgMeta)
    (endRes : MessageResult) (st1 : BVState) (h : CursorInv cfg st1)
    (hpos : pos = st1.createdA)
    (hguard : st1.createdA ≤ st1.validatedA + cfg.forwardBlocks) :
    CursorInv cfg (createFinish pos msg endRes st1).2 := by
  unfold createFinish
  split
  · exact cursorInv_success_update cfg st1 pos _ _ _ h hpos hguard
  · split
    · exact cursorInv_success_update cfg st1 pos _ _ _ h hpos hguard
    · exact h

theorem createNextValidationEntry_preserves (cfg : BVConfig) (env : Env)
    (st : BVState) (h : CursorInv cfg st) :
    CursorInv cfg (createNextValidationEntry cfg env st).2 := by
  simp only [createNextValidationEntry]
  repeat' split
  all_goals try exact h
  all_goals
    exact createFinish_preserves cfg st.createdA _ _ _ h rfl
      (show st.createdA ≤ st.validatedA + cfg.forwardBlocks by omega)

theorem promiseBoundB_elim (cfg : BVConfig) (st : BVState) (pr : RecordPromise)
    (t : Nat) (h : promiseBoundB cfg st = true)
    (h1 : st.nextRecordPrepared = some pr) (h2 : pr.result = .ok t) :
    t ≤ st.validatedA + cfg.prerecordedBlocks ∧ t ≤ st.createdA := by
  unfold promiseBoundB at h
  rw [h1] at h
  simp [h2] at h
  exact h

theorem recordPrepareLaunch_preserves (cfg : BVConfig) (env : Env) (st : BVState)
    (h : CursorInv cfg st) : CursorInv cfg (recordPrepareLaunch cfg env st) := by
  obtain ⟨h0, h1, h2, h3, h4, h5, h6⟩ := h
  simp only [recordPrepareLaunch]
  split
  · exact ⟨h0, h1, h2, h3, h4, h5, h6⟩
  · refine ⟨h0, h1, h2, h3, h4, h5, ?_⟩
    unfold promiseBoundB
    rcases hE : env.prepareForRecord st.prepared
        (min (st.validatedA + cfg.prerecordedBlocks) st.createdA - 1) with e | u
    · simp [hE]
    · simp [hE]

theorem sendNextRecordPrepare_preserves (cfg : BVConfig) (env : Env) (st : BVState)
    (h : CursorInv cfg st) : CursorInv cfg (sendNextRecordPrepare cfg env st).2 := by
  simp only [sendNextRecordPrepare]
  split
  · rename_i pr hpr
    split
    · split
      · exact h
      · rename_i t hres
        apply recordPrepareLaunch_preserves
        obtain ⟨hb1, hb2⟩ := promiseBoundB_elim cfg st pr t h.2.2.2.2.2.2 hpr hres
        obtain ⟨h0, h1, h2, h3, h4, h5, h6⟩ := h
        exact ⟨Nat.zero_le _, h1, h2, h3,
          show max st.prepared t - st.validatedA ≤ cfg.prerecordedBlocks by omega,
          show max st.prepared t ≤ st.createdA by omega, rfl⟩
    · exact h
  · exact recordPrepareLaunch_preserves cfg env st h

theorem sendNextRecordRequest_preserves (cfg : BVConfig) (env : Env) (st : BVState)
    (h : CursorInv cfg st) : CursorInv cfg (sendNextRecordRequest cfg env st).2 := by
  have hp := sendNextRecordPrepare_preserves cfg env st h
  simp only [sendNextRecordRequest]
  split
  · rename_i e st1 heq
    have hst1 : st1 = (sendNextRecordPrepare cfg env st).2 := by rw [heq]
    rw [hst1] at *
    exact hp
  · rename_i u st1 heq
    have hst1 : st1 = (sendNextRecordPrepare cfg env st).2 := by rw [heq]
    obtain ⟨h0, h1, h2, h3, h4, h5, h6⟩ := hst1 ▸ hp
    split
    · exact ⟨h0, h1, h2, h3, h4, h5, h6⟩
    · split
      · exact ⟨h0, h1, h2, h3, h4, h5, h6⟩
      · split
        · exact ⟨h0, h1, h2, h3, h4, h5, h6⟩
        · rename_i hprep vstat hlook hstat
          by_cases hstart : st1.started = true <;> simp only [hstart, if_true, if_false]
          · refine ⟨Nat.zero_le _,
              show st1.validatedA ≤ st1.recordSentA + 1 by omega,
              show st1.recordSentA + 1 ≤ st1.createdA by omega,
              h3, h4, h5, ?_⟩
            exact promiseBoundB_of cfg st1 _ rfl (Nat.le_refl _) (Nat.le_refl _) h6
          · refine ⟨Nat.zero_le _,
              show st1.validatedA ≤ st1.recordSentA + 1 by omega,
              show st1.recordSentA + 1 ≤ st1.createdA by omega,
              h3, h4, h5, ?_⟩
            exact promiseBoundB_of cfg st1 _ rfl (Nat.le_refl _) (Nat.le_refl _) h6

theorem processRuns_state (cfg : BVConfig) (st : BVState) (pos : Nat)
    (vstat : VStatus) (room : Nat) :
    ∀ runs acc,
      (processRuns cfg st pos vstat room runs acc).st = st ∨
      ∃ roots, (processRuns cfg st pos vstat room runs acc).st =
        { st with
            lastValidGS := vstat.entry.endState
            validatedA := pos + 1
            dbLastValidated := some (vstat.entry.endState, roots) } := by
  intro runs
  induction runs with
  | nil =>
    intro acc
    exact Or.inr ⟨acc.reverse, rfl⟩
  | cons run rest ih =>
    intro acc
    simp only [processRuns]
    split
    · exact Or.inl rfl
    · split
      · split
        · exact Or.inl rfl
        · exact ih _
      · exact Or.inl rfl

theorem validationIterationBody_preserves (cfg : BVConfig) (st : BVState)
    (spawnRuns : Nat → List VRun) (pos room : Nat) (h : CursorInv cfg st) :
    CursorInv cfg (validationIterationBody cfg st spawnRuns pos room).st := by
  simp only [validationIterationBody]
  split
  · exact h
  · split
    · exact h
    · rename_i vstat hlook
      split
      · exact h
      · split
        · rename_i hcond
          split
          · exact h
          · rcases processRuns_state cfg st pos vstat room vstat.runs [] with
              heq | ⟨roots, heq⟩
            · rw [heq]; exact h
            · rw [heq]
              obtain ⟨h0, h1, h2, h3, h4, h5, h6⟩ := h
              have hpos : pos = st.validatedA := hcond.2
              refine ⟨Nat.zero_le _,
                show pos + 1 ≤ st.recordSentA by omega,
                h2,
                show st.createdA - (pos + 1) ≤ cfg.forwardBlocks + 1 by omega,
                show st.prepared - (pos + 1) ≤ cfg.prerecordedBlocks by omega,
                h5, ?_⟩
              exact promiseBoundB_of cfg st _ rfl
                (show st.validatedA ≤ pos + 1 by omega) (Nat.le_refl _) h6
        · split
          · exact h
          · split
            · exact h
            · exact h

theorem checkValidatedGSCaughtUp_establishes (cfg : BVConfig) (env : Env)
    (st : BVState) (hcc : st.chainCaughtUp = false) (hp : st.prepared = 0)
    (hpr : st.nextRecordPrepared = none) :
    ∀ st', checkValidatedGSCaughtUp env st = (.ok true, st') → CursorInv cfg st' := by
  intro st' h
  simp only [checkValidatedGSCaughtUp] at h
  split at h
  · rename_i hcc'
    rw [hcc] at hcc'
    exact absurd hcc' (by simp)
  · split at h
    · simp at h
    · split at h
      · simp at h
      · split at h
        · simp at h
        · split at h
          · simp at h
          · injection h with h1 h2
            subst h2
            refine ⟨Nat.zero_le _, Nat.le_refl _, Nat.le_refl _, by simp, ?_, ?_, ?_⟩
            · show st.prepared - _ ≤ _
              rw [hp]
              simp
            · show st.prepared ≤ _
              rw [hp]
              exact Nat.zero_le _
            · simp [promiseBoundB, hpr]

/-- C4 (amended): the catch-up initialization establishes the cursor
invariants and every worker-loop step preserves them — with the creator's
window being `created - validated ≤ ForwardBlocks + 1` (its guard admits
`created ≤ validated + ForwardBlocks` and then advances by one), not
`ForwardBlocks` as claimed. -/
theorem cursor_invariants (cfg : BVConfig) (env : Env) :
    (∀ st st', st.chainCaughtUp = false → st.prepared = 0 →
      st.nextRecordPrepared = none →
      checkValidatedGSCaughtUp env st = (.ok true, st') → CursorInv cfg st') ∧
    (∀ st, CursorInv cfg st → CursorInv cfg (createNextValidationEntry cfg env st).2) ∧
    (∀ st, CursorInv cfg st → CursorInv cfg (sendNextRecordRequest cfg env st).2) ∧
    (∀ st spawnRuns pos room, CursorInv cfg st →
      CursorInv cfg (validationIterationBody cfg st spawnRuns pos room).st) :=
  ⟨fun st st' hcc hp hpr h => checkValidatedGSCaughtUp_establishes cfg env st hcc hp hpr st' h,
   fun st h => createNextValidationEntry_preserves cfg env st h,
   fun st h => sendNextRecordRequest_preserves cfg env st h,
   fun st sr pos room h => validationIterationBody_preserves cfg st sr pos room h⟩

/-- C4 counterexample: a creator step from a state satisfying the claimed
inequalities (with `created - validated = ForwardBlocks` exactly) succeeds
and leaves `created - validated = ForwardBlocks + 1`, violating the
claimed `created - validated ≤ ForwardBlocks` bound. -/
theorem createNextValidationEntry_forward_window_counterexample :
    CursorInvClaimed c4Cfg c4State ∧
    c4State.createdA - c4State.validatedA = c4Cfg.forwardBlocks ∧
    (createNextValidationEntry c4Cfg c4Env c4State).1 = .ok true ∧
    (createNextValidationEntry c4Cfg c4Env c4State).2.createdA -
      (createNextValidationEntry c4Cfg c4Env c4State).2.validatedA =
      c4Cfg.forwardBlocks + 1 ∧
    ¬CursorInvClaimed c4Cfg (createNextValidationEntry c4Cfg c4Env c4State).2 :=
  ⟨by decide, by decide, rfl, by decide, by decide⟩

/-- Witness for `cursor_invariants` on concrete states: the caught-up
initialization of a fresh validator and one step of each worker loop all
land in invariant-satisfying states. -/
theorem cursor_invariants_witness :
    CursorInv c4Cfg (checkValidatedGSCaughtUp c4CatchEnv c4CatchState).2 ∧
    CursorInv c4Cfg c4State ∧
    CursorInv c4Cfg (createNextValidationEntry c4Cfg c4Env c4State).2 ∧
    CursorInv c4Cfg (sendNextRecordRequest c4Cfg c4Env c4State).2 ∧
    CursorInv c4Cfg (validationIterationBody c4Cfg c4State (fun _ => []) 2 10).st := by
  have h : CursorInv c4Cfg c4State := by decide
  exact ⟨(cursor_invariants c4Cfg c4CatchEnv).1 c4CatchState
      (checkValidatedGSCaughtUp c4CatchEnv c4CatchState).2 rfl rfl rfl rfl,
    h,
    (cursor_invariants c4Cfg c4Env).2.1 c4State h,
    (cursor_invariants c4Cfg c4Env).2.2.1 c4State h,
    (cursor_invariants c4Cfg c4Env).2.2.2 c4State (fun _ => []) 2 10 h⟩


-- ---- C7 ----

/-- **C7.** History-cache round trip: for any valid key not yet in the
cache, `Put xs` succeeds; `Get` with no bound returns exactly `xs`;
`Get` with bound `k` returns the first `k + 1` hashes when `|xs| > k` and
otherwise fails with the "only read N state roots" error; and a second
`Put` to the same key fails with `ErrFileAlreadyExists`. -/
theorem historyCache_round_trip (c : List (CacheKey × List Nat)) (key : CacheKey)
    (xs : List Nat) (hvalid : ∃ p, determineFilePath key = Except.ok p)
    (hfresh : cacheLookup c key = none) :
    ∃ c', cachePut c key xs = Except.ok c' ∧
      cacheGet c' key none = Except.ok xs ∧
      (∀ k, k < xs.length →
        cacheGet c' key (some k) = Except.ok (xs.take (k + 1))) ∧
      (∀ k, xs.length ≤ k →
        cacheGet c' key (some k) = Except.error (.onlyReadStateRoots xs.length) ∧
        goErrText (GoErr.onlyReadStateRoots xs.length) =
          "only read " ++ toString xs.length ++ " state roots") ∧
      ∀ ys, cachePut c' key ys = Except.error GoErr.fileAlreadyExists := by
  obtain ⟨p, hp⟩ := hvalid
  have hlook : cacheLookup ((key, xs) :: c) key = some xs := by
    simp [cacheLookup, List.find?]
  refine ⟨(key, xs) :: c, ?_, ?_, ?_, ?_, ?_⟩
  · simp [cachePut, hp, hfresh]
  · simp [cacheGet, hp, hlook, readStateRoots]
  · intro k hk
    have hnl : ¬ xs.length < k + 1 := by omega
    simp [cacheGet, hp, hlook, readStateRoots, hnl]
  · intro k hk
    have hl : xs.length < k + 1 := by omega
    exact ⟨by simp [cacheGet, hp, hlook, readStateRoots, hl], rfl⟩
  · intro ys
    simp [cachePut, hp, hlook]

theorem historyCache_round_trip_witness :
    (∃ p, determineFilePath ⟨1, 2, 0, 1, none, none⟩ = Except.ok p) ∧
    cacheLookup ([] : List (CacheKey × List Nat)) ⟨1, 2, 0, 1, none, none⟩ = none ∧
    ∃ c', cachePut [] ⟨1, 2, 0, 1, none, none⟩ [10, 20, 30] = Except.ok c' ∧
      cacheGet c' ⟨1, 2, 0, 1, none, none⟩ none = Except.ok [10, 20, 30] ∧
      (∀ k, k < [10, 20, 30].length →
        cacheGet c' ⟨1, 2, 0, 1, none, none⟩ (some k) =
          Except.ok ([10, 20, 30].take (k + 1))) ∧
      (∀ k, [10, 20, 30].length ≤ k →
        cacheGet c' ⟨1, 2, 0, 1, none, none⟩ (some k) =
          Except.error (.onlyReadStateRoots [10, 20, 30].length) ∧
        goErrText (GoErr.onlyReadStateRoots [10, 20, 30].length) =
          "only read " ++ toString [10, 20, 30].length ++ " state roots") ∧
      ∀ ys, cachePut c' ⟨1, 2, 0, 1, none, none⟩ ys =
        Except.error GoErr.fileAlreadyExists :=
  ⟨⟨⟨1, 2, 0, 1, none, none⟩, rfl⟩, rfl,
    historyCache_round_trip [] ⟨1, 2, 0, 1, none, none⟩ [10, 20, 30]
      ⟨⟨1, 2, 0, 1, none, none⟩, rfl⟩ rfl⟩

-- ---- C9 helper lemmas ----

theorem txLess_asymm (a b : BoostableTx) (h : txLess a b = true) :
    txLess b a = false := by
  simp [txLess] at h ⊢
  omega

theorem txLess_shift (t x y : BoostableTx) (h1 : txLess t x = true)
    (h2 : txLess y x = false) : txLess y t = false := by
  simp [txLess] at h1 h2 ⊢
  omega

theorem insertTx_mem (t y : BoostableTx) (l : List BoostableTx)
    (h : y ∈ insertTx t l) : y = t ∨ y ∈ l := by
  induction l with
  | nil =>
    simp [insertTx] at h
    exact Or.inl h
  | cons x xs ih =>
    simp only [insertTx] at h
    split at h
    · rcases List.mem_cons.mp h with rfl | h
      · exact Or.inl rfl
      · exact Or.inr h
    · rcases List.mem_cons.mp h with rfl | h
      · exact Or.inr (List.mem_cons_self _ _)
      · rcases ih h with rfl | h
        · exact Or.inl rfl
        · exact Or.inr (List.mem_cons_of_mem _ h)

theorem insertTx_perm (t : BoostableTx) (l : List BoostableTx) :
    (insertTx t l).Perm (t :: l) := by
  induction l with
  | nil => exact List.Perm.refl _
  | cons x xs ih =>
    simp only [insertTx]
    split
    · exact List.Perm.refl _
    · exact (ih.cons x).trans (List.Perm.swap t x xs)

theorem insertTx_pairwise (t : BoostableTx) (l : List BoostableTx)
    (h : l.Pairwise (fun a b => txLess b a = false)) :
    (insertTx t l).Pairwise (fun a b => txLess b a = false) := by
  induction l with
  | nil => simp [insertTx]
  | cons x xs ih =>
    rw [List.pairwise_cons] at h
    obtain ⟨hx, hxs⟩ := h
    simp only [insertTx]
    split
    · rename_i hlt
      refine List.pairwise_cons.mpr ⟨?_, List.pairwise_cons.mpr ⟨hx, hxs⟩⟩
      intro y hy
      rcases List.mem_cons.mp hy with rfl | hy
      · exact txLess_asymm t y hlt
      · exact txLess_shift t x y hlt (hx y hy)
    · rename_i hnlt
      refine List.pairwise_cons.mpr ⟨?_, ih hxs⟩
      intro y hy
      rcases insertTx_mem t y xs hy with rfl | hy
      · exact Bool.eq_false_iff.mpr hnlt
      · exact hx y hy

theorem popAll_perm (txs : List BoostableTx) : (popAll txs).Perm txs := by
  induction txs with
  | nil => exact List.Perm.refl _
  | cons t rest ih =>
    simp only [popAll]
    exact (insertTx_perm t (popAll rest)).trans (ih.cons t)

theorem popAll_pairwise (txs : List BoostableTx) :
    (popAll txs).Pairwise (fun a b => txLess b a = false) := by
  induction txs with
  | nil => simp [popAll]
  | cons t rest ih =>
    simp only [popAll]
    exact insertTx_pairwise t (popAll rest) ih

-- ---- C9 ----

/-- **C9.** Popping every element of the time-boost priority queue
returns the transactions in heap order: the output is a permutation of
the input in which no element would pop after its predecessor (bid
descending, ties by timestamp ascending); for all-zero-bid inputs the
order is timestamp-ascending; and on the three seed inputs of
`TestTxPriorityQueue` (timestamps in milliseconds from `now`) the output
is the fixed permutation the test asserts. -/
theorem txPriorityQueue_pop_order (txs : List BoostableTx) :
    (popAll txs).Perm txs ∧
    (popAll txs).Pairwise (fun a b => txLess b a = false) ∧
    ((∀ t ∈ txs, t.bid = 0) →
      (popAll txs).Pairwise (fun a b => a.timestamp ≤ b.timestamp)) ∧
    popAll [⟨"", 0, 0⟩, ⟨"", 100, 100⟩] = [⟨"", 100, 100⟩, ⟨"", 0, 0⟩] ∧
    popAll [⟨"a", 100, 100⟩, ⟨"b", 100, 0⟩] = [⟨"b", 100, 0⟩, ⟨"a", 100, 100⟩] ∧
    popAll [⟨"a", 0, 100⟩, ⟨"b", 0, 0⟩, ⟨"c", 0, 200⟩] =
      [⟨"b", 0, 0⟩, ⟨"a", 0, 100⟩, ⟨"c", 0, 200⟩] := by
  refine ⟨popAll_perm txs, popAll_pairwise txs, ?_, by decide, by decide, by decide⟩
  intro hz
  refine (popAll_pairwise txs).imp_of_mem ?_
  intro a b ha hb hr
  have ha' : a ∈ txs := (popAll_perm txs).mem_iff.mp ha
  have hb' : b ∈ txs := (popAll_perm txs).mem_iff.mp hb
  have hza := hz a ha'
  have hzb := hz b hb'
  simp [txLess, hza, hzb] at hr
  omega

theorem txPriorityQueue_pop_order_witness :
    (∀ t ∈ [(⟨"a", 0, 100⟩ : BoostableTx), ⟨"b", 0, 0⟩, ⟨"c", 0, 200⟩],
      t.bid = 0) ∧
    (popAll [⟨"a", 0, 100⟩, ⟨"b", 0, 0⟩, ⟨"c", 0, 200⟩]).Pairwise
      (fun a b => a.timestamp ≤ b.timestamp) :=
  ⟨by decide,
    (txPriorityQueue_pop_order [⟨"a", 0, 100⟩, ⟨"b", 0, 0⟩, ⟨"c", 0, 200⟩]).2.2.1
      (by decide)⟩

end NitroSpec
